import Mathlib

/-!
Verification of the batched lookup and cache layer of the `TwitchData` module
(`src/utilities/twitch-data.js`-style module of the FrankerFaceZ repository).

The module mediates reads of entity data (users, live streams, content tags)
between many concurrent callers and one remote query endpoint, by

* keeping per-identifier-space waiter registries (JS `Map` objects from a key
  to the list of `[resolve, reject]` continuation pairs),
* draining up to 50 pending keys per batch cycle (`_loadUsers`,
  `_loadStreams`, `_loadTags`), guarded by a per-kind `_loading_*` flag,
* fanning the batch response back out to every waiter, and
* memoizing tag records in `tag_cache` (`memorizeTag`, `getTag`,
  `getTagImmediate`, `getTopTags`).

The embedding below translates that code into pure Lean functions.  JS `Map`s
become insertion-ordered association lists; promise continuations become
waiter identifiers (`Nat`), and invoking a continuation becomes emitting a
notification `(waiterId, Outcome)`.  JS truthiness tests on string-valued
fields become `truthy` on `Option String` (both `undefined`/`null` and the
empty string are falsy).  The external transport adapter (Apollo) is a
parameter: a cycle body receives the response `Except String ...`, where
`Except.error` models the adapter throwing.
-/

set_option autoImplicit false

namespace TwitchData

/-- JS truthiness of a possibly-absent string value: `undefined`, `null` and
`""` are falsy, every other string is truthy. -/
def truthy : Option String → Bool
  | none => false
  | some s => !(s = "")

/-- Insertion-ordered map from string keys, modelling a JS `Map`: lookup. -/
def mget {β : Type} : List (String × β) → String → Option β
  | [], _ => none
  | (k, v) :: rest, key => if k = key then some v else mget rest key

/-- JS `Map.set`: replace in place when the key exists, else append at the
end (JS `Map` preserves insertion order). -/
def mset {β : Type} : List (String × β) → String → β → List (String × β)
  | [], key, v => [(key, v)]
  | (k, w) :: rest, key, v =>
    if k = key then (key, v) :: rest else (k, w) :: mset rest key v

/-- JS `Map.delete`. -/
def mdelete {β : Type} : List (String × β) → String → List (String × β)
  | [], _ => []
  | (k, v) :: rest, key =>
    if k = key then mdelete rest key else (k, v) :: mdelete rest key

/-- The key sequence of a map, in insertion order (JS `[...map.keys()]`). -/
def mkeys {β : Type} (m : List (String × β)) : List String :=
  m.map Prod.fst

/-- A waiter registry: key to the list of pending waiter identifiers,
modelling e.g. `_waiting_user_ids : Map key -> [resolve, reject][]`. -/
abbrev Reg := List (String × List Nat)

/-- Registering a waiter, modelling
`if (map.has(k)) map.get(k).push(pair); else map.set(k, [pair]);`. -/
def mpush (m : Reg) (k : String) (w : Nat) : Reg :=
  match mget m k with
  | some ws => mset m k (ws ++ [w])
  | none => mset m k [w]

/-- A terminal notification delivered to one waiter: its resolve continuation
called with a value, or its reject continuation called with an error
(errors are modelled as strings). -/
inductive Outcome (γ : Type) where
  | fulfilled (v : γ)
  | rejected (e : String)
  deriving DecidableEq, Repr

/-- The value of a possibly-absent string (used only under a `truthy` guard,
where the value is a nonempty string). -/
def strval : Option String → String
  | some s => s
  | none => ""

/-- A response entity of the bulk user/stream query: `data.users` nodes carry
an `id`, a `login` and further fields (abstracted as `payload`; for the
stream query the relevant field is `node.stream`).  List entries can be
`null`, hence nodes appear as `Option (BulkNode α)` in responses. -/
structure BulkNode (α : Type) where
  id : Option String
  login : Option String
  payload : α
  deriving DecidableEq, Repr

/-- The mutable state of one batched scheduler (users or streams): the two
waiter registries (`_waiting_user_ids` / `_waiting_user_logins`, resp.
`_waiting_stream_ids` / `_waiting_stream_logins`) and the cycle-running
flag (`_loading_users` / `_loading_streams`). -/
structure SchedState where
  waiting_ids : Reg
  waiting_logins : Reg
  loading : Bool
  deriving DecidableEq, Repr

/-- The keys snapshotted for one batch cycle: the id list and login list sent
to the remote bulk query (`ids`/`logins` variables of `_loadUsers`). -/
structure Flight where
  ids : List String
  logins : List String
  deriving DecidableEq, Repr

/-- The synchronous head of `_loadUsers` / `_loadStreams`: the re-entrancy
guard (`if (this._loading_users) return;`), setting the cycle-running flag,
and the batch snapshot

    const ids = [...waiting_ids.keys()].slice(0, 50),
          remaining = 50 - ids.length,
          logins = remaining > 0 ? [...waiting_logins.keys()].slice(0, remaining) : [];

`none` means the guard fired and no cycle was started. -/
def startCycle (st : SchedState) : SchedState × Option Flight :=
  if st.loading then (st, none)
  else
    let ids := (mkeys st.waiting_ids).take 50
    let remaining := 50 - ids.length
    let logins :=
      if remaining > 0 then (mkeys st.waiting_logins).take remaining else []
    ({ st with loading := true }, some ⟨ids, logins⟩)

/-- The working data of the success fan-out loop of `_loadUsers`:
`id_set`/`login_set` (JS `Set`s initialized from the selected keys), the two
registries, and the notifications emitted so far. -/
structure Fanout (γ : Type) where
  idSet : List String
  loginSet : List String
  wIds : Reg
  wLogins : Reg
  notifs : List (Nat × Outcome γ)

/-- The repeated drain-and-fulfill block of the response-node loop:

    let promises = waiting.get(key);
    if (promises) { waiting.delete(key); for (pair) pair[0](value); }

returning the updated registry and the extended notification list. -/
def drainKey {γ : Type} (v : γ) (m : Reg) (k : String)
    (notifs : List (Nat × Outcome γ)) : Reg × List (Nat × Outcome γ) :=
  match mget m k with
  | some ws =>
    (mdelete m k, notifs ++ ws.map (fun w => (w, Outcome.fulfilled v)))
  | none => (m, notifs)

/-- One iteration of the response-node loop of `_loadUsers` / `_loadStreams`:

    if (!node || !node.id) continue;
    id_set.delete(node.id); login_set.delete(node.login);
    let promises = waiting_ids.get(node.id);
    if (promises) { waiting_ids.delete(node.id); fulfill each with found(node); }
    promises = waiting_logins.get(node.login);
    if (promises) { waiting_logins.delete(node.login); fulfill each with found(node); }

`found` is the fulfilled value: the node itself for users, `node.stream`
for streams.  A `none` login leaves the login structures untouched
(`Set.delete(undefined)` / `Map.get(undefined)` find nothing).  The two
`Set.delete`s and the two registry drains touch disjoint fields, so they
are assembled in one record. -/
def processNode {α γ : Type} (found : BulkNode α → γ) (acc : Fanout γ)
    (node : Option (BulkNode α)) : Fanout γ :=
  match node with
  | none => acc
  | some n =>
    match n.id with
    | none => acc
    | some nid =>
      if nid = "" then acc
      else
        let (wIds1, notifs1) := drainKey (found n) acc.wIds nid acc.notifs
        match n.login with
        | none => ⟨acc.idSet.erase nid, acc.loginSet, wIds1, acc.wLogins, notifs1⟩
        | some l =>
          let (wLogins1, notifs2) := drainKey (found n) acc.wLogins l notifs1
          ⟨acc.idSet.erase nid, acc.loginSet.erase l, wIds1, wLogins1, notifs2⟩

/-- The whole response-node loop. -/
def processNodes {α γ : Type} (found : BulkNode α → γ) :
    List (Option (BulkNode α)) → Fanout γ → Fanout γ
  | [], acc => acc
  | n :: rest, acc => processNodes found rest (processNode found acc n)

/-- The not-found fan-out over a leftover key set of `_loadUsers`:

    for (const id of id_set) {
      const promises = waiting.get(id);
      if (promises) { waiting.delete(id); fulfill each with null; }
    }
-/
def fulfillLeftover {γ : Type} (notFound : γ) :
    List String → Reg → Reg × List (Nat × Outcome γ)
  | [], m => (m, [])
  | k :: ks, m =>
    match mget m k with
    | some ws =>
      let (m', ns) := fulfillLeftover notFound ks (mdelete m k)
      (m', ws.map (fun w => (w, Outcome.fulfilled notFound)) ++ ns)
    | none => fulfillLeftover notFound ks m

/-- The catch-block fan-out of `_loadUsers` / `_loadStreams` / `_loadTags`:
for each selected key, remove its waiter list and reject every waiter with
the caught error.  In the source `promises` is always defined on this path
(the selected keys are snapshotted registry keys); the absent case is
modelled as an empty waiter list. -/
def rejectKeys {γ : Type} :
    List String → Reg → String → Reg × List (Nat × Outcome γ)
  | [], m, _ => (m, [])
  | k :: ks, m, err =>
    let ws := (mget m k).getD []
    let (m', ns) := rejectKeys ks (mdelete m k) err
    (m', ws.map (fun w => (w, Outcome.rejected err)) ++ ns)

/-- The remainder of `_loadUsers` / `_loadStreams` after the remote query
returns: either the catch block (transport failure: reject every waiter of
every selected key, then `return` — note that the source does NOT clear the
cycle-running flag on this path and never reaches the re-arm check), or the
success fan-out (node loop, then explicit-null fan-out for selected but
unmatched keys, then `loading := false`, then the re-arm check
`if (waiting_ids.size || waiting_logins.size) this._loadUsers();`, returned
here as the `Bool` component).  A response whose `data.users` is not an
array (`none`) skips the node loop, so every selected key resolves null. -/
def finishCycle {α γ : Type} (found : BulkNode α → γ) (notFound : γ)
    (st : SchedState) (fl : Flight)
    (resp : Except String (Option (List (Option (BulkNode α))))) :
    SchedState × List (Nat × Outcome γ) × Bool :=
  match resp with
  | .error err =>
    let (wi, ns1) := rejectKeys fl.ids st.waiting_ids err
    let (wl, ns2) := rejectKeys fl.logins st.waiting_logins err
    ({ st with waiting_ids := wi, waiting_logins := wl }, ns1 ++ ns2, false)
  | .ok nodes =>
    let acc0 : Fanout γ :=
      ⟨fl.ids, fl.logins, st.waiting_ids, st.waiting_logins, []⟩
    let acc1 := match nodes with
      | some ns => processNodes found ns acc0
      | none => acc0
    let (wi, nsI) := fulfillLeftover notFound acc1.idSet acc1.wIds
    let (wl, nsL) := fulfillLeftover notFound acc1.loginSet acc1.wLogins
    let st' : SchedState :=
      { waiting_ids := wi, waiting_logins := wl, loading := false }
    (st', acc1.notifs ++ nsI ++ nsL, !wi.isEmpty || !wl.isEmpty)

/-- One whole batch-cycle body (`_loadUsers` / `_loadStreams`), given the
response the transport adapter produced for the cycle's query. -/
def loadBulkBody {α γ : Type} (found : BulkNode α → γ) (notFound : γ)
    (st : SchedState)
    (resp : Except String (Option (List (Option (BulkNode α))))) :
    SchedState × List (Nat × Outcome γ) × Bool :=
  match startCycle st with
  | (st', none) => (st', [], false)
  | (st', some fl) => finishCycle found notFound st' fl resp

/-- `_loadUsers`: waiters are fulfilled with the matching node itself. -/
def loadUsersBody {α : Type} (st : SchedState)
    (resp : Except String (Option (List (Option (BulkNode α))))) :
    SchedState × List (Nat × Outcome (Option (BulkNode α))) × Bool :=
  loadBulkBody (fun n => some n) none st resp

/-- `_loadStreams`: waiters are fulfilled with `node.stream` (modelled as the
node payload, itself possibly `null`). -/
def loadStreamsBody {β : Type} (st : SchedState)
    (resp : Except String (Option (List (Option (BulkNode (Option β)))))) :
    SchedState × List (Nat × Outcome (Option β)) × Bool :=
  loadBulkBody (fun n => n.payload) none st resp

/-- The `new Promise((s, f) => ...)` executor body shared by `getUserBasic`
and `getStreamMeta`, up to the trailing loader trigger:

    if (id) { push or set waiting_ids }
    else if (login) { push or set waiting_logins }
    else f('id and login cannot both be null');

The third component is the rejection (if any) delivered to the caller. -/
def registerWaiter (wIds wLogins : Reg) (id login : Option String) (w : Nat) :
    Reg × Reg × Option String :=
  if truthy id then (mpush wIds (strval id) w, wLogins, none)
  else if truthy login then (wIds, mpush wLogins (strval login) w, none)
  else (wIds, wLogins, some "id and login cannot both be null")

/-- One `getUserBasic(id, login)` call: register (or reject), then — after
the if/else chain, hence also for a rejected invalid call —

    if (!this._loading_users) this._loadUsers();

`_loadUsers` is NOT debounced (the constructor wraps only `_loadTags` and
`_loadStreams`), so the call runs the loader head synchronously; the started
flight (snapshot) is returned when a cycle starts. -/
def getUserBasicStep (st : SchedState) (id login : Option String) (w : Nat) :
    SchedState × Option (Nat × String) × Option Flight :=
  let (wi, wl, rej) := registerWaiter st.waiting_ids st.waiting_logins id login w
  let st1 : SchedState := { st with waiting_ids := wi, waiting_logins := wl }
  let (st2, fl) := startCycle st1
  (st2, rej.map (fun e => (w, e)), fl)

/-- One `getStreamMeta(id, login)` call: register (or reject), then
`if (!this._loading_streams) this._loadStreams();`.  Here `_loadStreams` is
the debounced wrapper (constructor: `debounce(this._loadStreams, 50)`), so
the trigger only schedules the cycle; the `Bool` records whether the loader
entry point was invoked. -/
def getStreamMetaStep (st : SchedState) (id login : Option String) (w : Nat) :
    SchedState × Option (Nat × String) × Bool :=
  let (wi, wl, rej) := registerWaiter st.waiting_ids st.waiting_logins id login w
  let st1 : SchedState := { st with waiting_ids := wi, waiting_logins := wl }
  (st1, rej.map (fun e => (w, e)), !st1.loading)

/-- Event-loop trace state for a users scenario: the scheduler state, the
flight whose remote query is outstanding (if any), every query issued so
far, every notification delivered so far, and the next fresh waiter id. -/
structure RunAcc (α : Type) where
  st : SchedState
  flight : Option Flight
  queries : List Flight
  notifs : List (Nat × Outcome (Option (BulkNode α)))
  next : Nat

/-- One synchronous `getUserBasic` call inside a tick.  Callers are numbered
in call order.  At most one cycle can start per tick (the first call sets
`_loading_users`), so a started flight replaces the (then absent) one. -/
def tickCall {α : Type} (acc : RunAcc α) (c : Option String × Option String) :
    RunAcc α :=
  let (st', rej, fl) := getUserBasicStep acc.st c.1 c.2 acc.next
  { st := st'
    flight := match fl with | some f => some f | none => acc.flight
    queries := acc.queries ++ (match fl with | some f => [f] | none => [])
    notifs := acc.notifs ++
      (match rej with | some (w, e) => [(w, Outcome.rejected e)] | none => [])
    next := acc.next + 1 }

/-- Arrival of the outstanding query's response: run the rest of
`_loadUsers`; if the re-arm check fires, the recursive `this._loadUsers()`
call synchronously starts the next cycle (the flag was just cleared), whose
query becomes the new outstanding flight. -/
def respondOne {α : Type} (acc : RunAcc α)
    (resp : Except String (Option (List (Option (BulkNode α))))) : RunAcc α :=
  match acc.flight with
  | none => acc
  | some fl =>
    let (st', ns, rearm) := finishCycle (fun n => some n) none acc.st fl resp
    if rearm then
      match startCycle st' with
      | (st2, some f2) =>
        { acc with
          st := st2
          flight := some f2
          queries := acc.queries ++ [f2]
          notifs := acc.notifs ++ ns }
      | (st2, none) =>
        { acc with st := st2, flight := none, notifs := acc.notifs ++ ns }
    else
      { acc with st := st', flight := none, notifs := acc.notifs ++ ns }

/-- A whole users scenario from a fresh module instance: a list of
`getUserBasic(id, login)` calls issued synchronously within one tick,
followed by the responses the transport adapter returns to the successive
outstanding queries. -/
def runUsersScenario {α : Type} (calls : List (Option String × Option String))
    (resps : List (Except String (Option (List (Option (BulkNode α)))))) :
    RunAcc α :=
  resps.foldl respondOne (calls.foldl tickCall ⟨⟨[], [], false⟩, none, [], [], 0⟩)

/-- A raw upstream tag node, as it appears in `data.contentTags`,
`data.topTags` or `data.searchLiveTags` responses. -/
structure TagNode where
  id : Option String
  tagName : Option String
  localizedName : Option String
  localizedDescription : Option String
  isAutomated : Bool
  isLanguageTag : Bool
  scope : Option String
  deriving DecidableEq, Repr

/-- The merged tag record held by `tag_cache`.  `label` and `description`
start absent on a fresh record and are filled by `memorizeTag`. -/
structure TagRecord where
  id : String
  value : String
  is_auto : Bool
  is_language : Bool
  language : Option String
  name : String
  scope : Option String
  label : Option String
  description : Option String
  deriving DecidableEq, Repr

/-- A `\w` character of the `LANGUAGE_MATCHER` regex (ASCII word char). -/
def isWordChar (c : Char) : Bool :=
  c.isAlphanum || c = '_'

/-- `LANGUAGE_MATCHER = /^auto___lang_(\w+)$/` applied to a tag name: the
captured group when the whole name matches, else `null`. -/
def langMatch (s : String) : Option String :=
  let pre := "auto___lang_"
  if s.startsWith pre then
    let rest := s.drop pre.length
    if rest ≠ "" && rest.all isWordChar then some rest else none
  else none

/-- The tag subsystem state: `tag_cache`, `_waiting_tags`, `_loading_tags`. -/
structure TagState where
  tag_cache : List (String × TagRecord)
  waiting_tags : Reg
  loading_tags : Bool
  deriving DecidableEq, Repr

/-- The fresh record `memorizeTag` creates on a cache miss (the `if (!tag)`
branch), deriving a language code by matching the canonical name against
the auto-language convention when the node is flagged as a language tag. -/
def freshTag (n : TagNode) : TagRecord :=
  let lang := if n.isLanguageTag then langMatch (strval n.tagName) else none
  { id := strval n.id, value := strval n.id, is_auto := n.isAutomated,
    is_language := n.isLanguageTag, language := lang,
    name := strval n.tagName, scope := n.scope,
    label := none, description := none }

/-- The two conditional assignments of `memorizeTag`:

    if (node.localizedName) tag.label = node.localizedName;
    if (node.localizedDescription) tag.description = node.localizedDescription;
-/
def mergeTag (n : TagNode) (t0 : TagRecord) : TagRecord :=
  { t0 with
    label := if truthy n.localizedName then n.localizedName else t0.label,
    description :=
      if truthy n.localizedDescription then n.localizedDescription
      else t0.description }

/-- The record `memorizeTag` leaves in the cache for a well-formed node:
the fetched-or-created record with the node's label/description merged. -/
def memorizedRecord (n : TagNode) (st : TagState) : TagRecord :=
  mergeTag n (match mget st.tag_cache (strval n.id) with
    | some t => t
    | none => freshTag n)

/-- `memorizeTag(node, dispatch)`.  A node missing an id, `tagName` or
`localizedName` is rejected up front (`return;` — the second component is
the function's return value, `none` for `undefined`).  Otherwise the cached
record is fetched or freshly created, `label` and `description` are merged
(`memorizedRecord`), and — when `dispatch` is set, the record now has a
description and waiters are pending for this id — the waiters are drained
and fulfilled with the record.

The source `set`s a fresh record into the cache before mutating
`tag.label` / `tag.description` on the same object; the cache therefore
holds the merged record, which is what `mset` stores here. -/
def memorizeTag (node : Option TagNode) (dispatch : Bool) (st : TagState) :
    TagState × Option TagRecord × List (Nat × Outcome (Option TagRecord)) :=
  match node with
  | none => (st, none, [])
  | some n =>
    if !truthy n.id || !truthy n.tagName || !truthy n.localizedName then
      (st, none, [])
    else
      let nid := strval n.id
      let tag1 := memorizedRecord n st
      let cache' := mset st.tag_cache nid tag1
      if dispatch && truthy tag1.description
          && (mget st.waiting_tags nid).isSome then
        ({ tag_cache := cache',
           waiting_tags := mdelete st.waiting_tags nid,
           loading_tags := st.loading_tags },
         some tag1,
         ((mget st.waiting_tags nid).getD []).map
           (fun w => (w, Outcome.fulfilled (some tag1))))
      else
        ({ st with tag_cache := cache' }, some tag1, [])

/-- The response-node loop of `_loadTags`:

    const tag = this.memorizeTag(node, false),
          promises = this._waiting_tags.get(tag.id);
    this._waiting_tags.delete(tag.id);
    id_set.delete(tag.id);
    if (promises) for (const pair of promises) pair[0](tag);

When `memorizeTag` rejects a malformed node it returns `undefined`, so the
very next property access `tag.id` throws a TypeError: the loop (and the
whole cycle body) aborts there, modelled by the `Except.error` case, which
carries the state and notifications accumulated before the throw. -/
def processTagNodes :
    List (Option TagNode) → TagState →
    List (Nat × Outcome (Option TagRecord)) → List String →
    Except (TagState × List (Nat × Outcome (Option TagRecord)))
      (TagState × List (Nat × Outcome (Option TagRecord)) × List String)
  | [], st, notifs, idSet => .ok (st, notifs, idSet)
  | node :: rest, st, notifs, idSet =>
    match memorizeTag node false st with
    | (st1, none, _) => .error (st1, notifs)
    | (st1, some tag, _) =>
      let ws := mget st1.waiting_tags tag.id
      let st2 := { st1 with waiting_tags := mdelete st1.waiting_tags tag.id }
      let idSet' := idSet.erase tag.id
      let notifs' := notifs ++ (match ws with
        | some l => l.map (fun w => (w, Outcome.fulfilled (some tag)))
        | none => [])
      processTagNodes rest st2 notifs' idSet'

/-- The not-found fan-out of `_loadTags` over the leftover `id_set` (the
source iterates `promises` without a guard; on this path every leftover id
still has its waiter list, the absent case is modelled as empty). -/
def fulfillTagLeftover :
    List String → TagState → List (Nat × Outcome (Option TagRecord)) →
    TagState × List (Nat × Outcome (Option TagRecord))
  | [], st, notifs => (st, notifs)
  | k :: ks, st, notifs =>
    let ws := (mget st.waiting_tags k).getD []
    fulfillTagLeftover ks
      { st with waiting_tags := mdelete st.waiting_tags k }
      (notifs ++ ws.map (fun w => (w, Outcome.fulfilled none)))

/-- Terminal result of one `_loadTags` cycle body: normal completion (with
the re-arm flag), or the TypeError crash described at `processTagNodes`. -/
inductive TagsCycleResult where
  | ok (st : TagState) (notifs : List (Nat × Outcome (Option TagRecord)))
      (rearm : Bool)
  | crashed (st : TagState) (notifs : List (Nat × Outcome (Option TagRecord)))
  deriving DecidableEq, Repr

/-- The tail of the `_loadTags` success path after the node loop: the
TypeError abort propagates (`crashed`), otherwise the leftover null
fan-out, `this._loading_tags = false;`, and the re-arm check
`if (this._waiting_tags.size) this._loadTags();`. -/
def loadTagsFinish
    (step : Except (TagState × List (Nat × Outcome (Option TagRecord)))
      (TagState × List (Nat × Outcome (Option TagRecord)) × List String)) :
    TagsCycleResult :=
  match step with
  | .error (st2, ns) => .crashed st2 ns
  | .ok (st2, ns, idSet) =>
    let (st3, ns') := fulfillTagLeftover idSet st2 ns
    let st4 := { st3 with loading_tags := false }
    .ok st4 ns' (!st4.waiting_tags.isEmpty)

/-- One whole `_loadTags` cycle body, given the transport's response for
`data.contentTags`.  The catch path rejects every waiter of every selected
id and `return`s — like `_loadUsers` it neither clears `_loading_tags` nor
reaches the re-arm check. -/
def loadTagsBody (st : TagState)
    (resp : Except String (Option (List (Option TagNode)))) : TagsCycleResult :=
  if st.loading_tags then .ok st [] false
  else
    let st1 := { st with loading_tags := true }
    let ids := (mkeys st1.waiting_tags).take 50
    match resp with
    | .error err =>
      let (wt, ns) := rejectKeys (γ := Option TagRecord) ids st1.waiting_tags err
      .ok { st1 with waiting_tags := wt } ns false
    | .ok nodes =>
      loadTagsFinish (match nodes with
        | some nlist => processTagNodes nlist st1 [] ids
        | none => .ok (st1, [], ids))

/-- The argument of `getTag`: a plain tag id, or (accidentally) a whole tag
record, normalized by `if (id && id.id) id = id.id;`. -/
inductive TagRef where
  | byId (id : String)
  | byObj (t : TagRecord)
  deriving DecidableEq, Repr

/-- The normalized tag id of a `getTag` argument. -/
def tagRefId : TagRef → String
  | .byId i => i
  | .byObj t => t.id

/-- How a `getTag` call returned: an already-resolved promise carrying the
cached record, or a pending promise whose waiter was queued (with whether
this call invoked the — debounced — `_loadTags` entry point). -/
inductive GetTagRes where
  | immediate (t : TagRecord)
  | queued (startedLoad : Bool)
  deriving DecidableEq, Repr

/-- The registration tail of `getTag` (lines following the cache probe):
join the existing waiter list for the id, or create it and — only then —
trigger `_loadTags` unless a cycle is already running. -/
def queueTag (id : String) (st : TagState) (w : Nat) : TagState × GetTagRes :=
  match mget st.waiting_tags id with
  | some ws =>
    ({ st with waiting_tags := mset st.waiting_tags id (ws ++ [w]) },
     .queued false)
  | none =>
    ({ st with waiting_tags := mset st.waiting_tags id [w] },
     .queued (!st.loading_tags))

/-- `getTag(id, want_description)`: resolve immediately from the cache when
the cached record is sufficient (has a description, or none is required),
else fall through to the batched fetch registration. -/
def getTag (ref : TagRef) (want_description : Bool) (st : TagState) (w : Nat) :
    TagState × GetTagRes :=
  let id := tagRefId ref
  match mget st.tag_cache id with
  | some out =>
    if truthy out.description || !want_description then (st, .immediate out)
    else queueTag id st w
  | none => queueTag id st w

/-- The result loop of `getTopTags`:

    const out = [], seen = new Set;
    for (const node of nodes) {
      if (!node || seen.has(node.id)) continue;
      seen.add(node.id);
      out.push(this.memorizeTag(node));
    }

`memorizeTag` is called with `dispatch` defaulted to `true`; its return
value is pushed even when it is `undefined` (malformed node), hence entries
of type `Option TagRecord`. -/
def topTagsLoop :
    List (Option TagNode) → List (Option String) → TagState →
    TagState × List (Option TagRecord) × List (Nat × Outcome (Option TagRecord))
  | [], _, st => (st, [], [])
  | node :: rest, seen, st =>
    match node with
    | none => topTagsLoop rest seen st
    | some n =>
      if seen.contains n.id then topTagsLoop rest seen st
      else
        let (st1, tagOpt, ns) := memorizeTag (some n) true st
        let (st2, out, ns') := topTagsLoop rest (n.id :: seen) st1
        (st2, tagOpt :: out, ns ++ ns')

/-- `getTopTags` response handling: a non-array `data.topTags` yields `[]`,
else the dedup-and-memorize loop above. -/
def getTopTagsProcess (nodes : Option (List (Option TagNode))) (st : TagState) :
    TagState × List (Option TagRecord) × List (Nat × Outcome (Option TagRecord)) :=
  match nodes with
  | none => (st, [], [])
  | some ns => topTagsLoop ns [] st

/-- Whether a response node is processed by the node loop AND drains the
id-space key `k`: the node is non-null, its `id` is truthy, and equals `k`. -/
def idMatchB {α : Type} (node : Option (BulkNode α)) (k : String) : Bool :=
  match node with
  | some n => n.id == some k && !(k == "")
  | none => false

/-- Whether a response node is processed by the node loop AND drains the
login-space key `k`: the node is non-null, its `id` is truthy (otherwise the
loop `continue`s), and its `login` equals `k`. -/
def loginMatchB {α : Type} (node : Option (BulkNode α)) (k : String) : Bool :=
  match node with
  | some n => truthy n.id && n.login == some k
  | none => false

/-- The first response node that drains id-space key `k` (waiters on `k` are
fulfilled with this node). -/
def firstIdMatch {α : Type} (k : String) :
    List (Option (BulkNode α)) → Option (BulkNode α)
  | [] => none
  | node :: rest =>
    if idMatchB node k then node else firstIdMatch k rest

/-- The first response node that drains login-space key `k`. -/
def firstLoginMatch {α : Type} (k : String) :
    List (Option (BulkNode α)) → Option (BulkNode α)
  | [] => none
  | node :: rest =>
    if loginMatchB node k then node else firstLoginMatch k rest

/-- The batch snapshot `startCycle` takes, spelled out: up to 50 pending
id-space keys, the remaining capacity filled from login-space keys. -/
def snapshotOf (st : SchedState) : Flight :=
  let ids := (mkeys st.waiting_ids).take 50
  let remaining := 50 - ids.length
  ⟨ids,
   if remaining > 0 then (mkeys st.waiting_logins).take remaining else []⟩

/-- The ids a `_loadTags` cycle selects: the first 50 pending tag ids. -/
def tagSelected (st : TagState) : List String :=
  (mkeys st.waiting_tags).take 50

/-- The tag-subsystem state a `_loadTags` cycle ends in (also for the
TypeError abort). -/
def TagsCycleResult.state : TagsCycleResult → TagState
  | .ok st _ _ => st
  | .crashed st _ => st

/-- The notifications a `_loadTags` cycle delivered. -/
def TagsCycleResult.sent : TagsCycleResult → List (Nat × Outcome (Option TagRecord))
  | .ok _ ns _ => ns
  | .crashed _ ns => ns

/-- Whether the `_loadTags` cycle reached and passed the re-arm check. -/
def TagsCycleResult.rearmed : TagsCycleResult → Bool
  | .ok _ _ r => r
  | .crashed _ _ => false

/-- The ids of the defined entries of a `getTopTags` result list. -/
def entryIds (out : List (Option TagRecord)) : List String :=
  out.filterMap (fun o => o.map TagRecord.id)

/-- The tag cache invariant maintained by `memorizeTag`: every cached record
is stored under its own id. -/
def WellKeyedCache (st : TagState) : Prop :=
  ∀ k t, mget st.tag_cache k = some t → t.id = k

/-! Concrete states and nodes used by the closed theorems below. -/

/-- A fresh module instance's users scheduler state. -/
def emptySched : SchedState := ⟨[], [], false⟩

/-- User entity with id 1 (login "alpha"). -/
def exNodeA : BulkNode Unit := ⟨some "1", some "alpha", ()⟩

/-- User entity with id 2 (login "beta"). -/
def exNodeB : BulkNode Unit := ⟨some "2", some "beta", ()⟩

/-- User entity with id 3 and login "foo". -/
def exNodeFoo : BulkNode Unit := ⟨some "3", some "foo", ()⟩

/-- Pending user lookups for ids 1 and 2 and login "foo", no cycle running. -/
def exSched : SchedState := ⟨[("1", [0]), ("2", [1])], [("foo", [2])], false⟩

/-- Fifty pending user-id lookups (ids "0".."49") plus one pending login
lookup ("foo", waiter 99): the login key is NOT selected by a cycle. -/
def wideSched : SchedState :=
  ⟨(List.range 50).map (fun i => (toString i, [i])), [("foo", [99])], false⟩

/-- The response entity for requested id "0", whose login happens to be the
pending (but unselected) login "foo". -/
def wideNode : BulkNode Unit := ⟨some "0", some "foo", ()⟩

/-- Fifty-one pending user-id lookups (ids "0".."50"). -/
def sched51 : SchedState :=
  ⟨(List.range 51).map (fun i => (toString i, [i])), [], false⟩

/-- An honest remote response to the cycle `wideSched` starts: exactly the
fifty requested entities (ids "0".."49"), where the entity for id "0"
happens to carry the pending — but unselected — login "foo". -/
def wideResp : List (Option (BulkNode Unit)) :=
  (List.range 50).map (fun i =>
    some ⟨some (toString i),
      some (if i = 0 then "foo" else "u" ++ toString i), ()⟩)

/-- The full event-loop trace of two `getUserBasic` calls (ids 1 and 2)
issued in the same tick, with each outstanding query answered by the
matching entity. -/
def sameTickTrace : RunAcc Unit :=
  runUsersScenario [(some "1", none), (some "2", none)]
    [.ok (some [some exNodeA]), .ok (some [some exNodeB])]

/-- Two pending user-id lookups, no cycle running (used for the failure
scenario). -/
def stuckUsers : SchedState := ⟨[("1", [0]), ("2", [1])], [], false⟩

/-- Two pending tag lookups, no cycle running. -/
def stuckTags : TagState := ⟨[], [("50", [0]), ("51", [1])], false⟩

/-- A raw tag node missing its `localizedName`: malformed for ingestion. -/
def malformedTagNode : TagNode :=
  ⟨some "1", some "sometag", none, none, false, false, none⟩

/-- One pending tag lookup (id "50"), no cycle running. -/
def tagsWaitingSt : TagState := ⟨[], [("50", [0])], false⟩

/-- A well-formed language tag node without a description. -/
def langTagNode : TagNode :=
  ⟨some "50", some "auto___lang_en", some "English", none, false, true,
   some "ALL"⟩

/-- The same tag node, now carrying a localized description. -/
def langTagNodeDesc : TagNode :=
  ⟨some "50", some "auto___lang_en", some "English", some "English speaking",
   false, true, some "ALL"⟩

/-- A well-formed non-language tag node without a description. -/
def plainTagNode : TagNode :=
  ⟨some "77", some "Rainbow", some "Rainbow", none, false, false,
   some "ALL"⟩

/-- The same non-language tag node, carrying a localized description. -/
def plainTagNodeDesc : TagNode :=
  ⟨some "77", some "Rainbow", some "Rainbow", some "A lovely tag",
   false, false, some "ALL"⟩

/-- The record `memorizeTag` caches for `plainTagNode` alone. -/
def plainTagRecord : TagRecord :=
  ⟨"77", "77", false, false, none, "Rainbow", some "ALL",
   some "Rainbow", none⟩

/-- The record `memorizeTag` caches for `plainTagNodeDesc`. -/
def plainTagRecordDesc : TagRecord :=
  ⟨"77", "77", false, false, none, "Rainbow", some "ALL",
   some "Rainbow", some "A lovely tag"⟩

section MapLemmas

variable {β : Type}

theorem mget_mset_self (m : List (String × β)) (k : String) (v : β) :
    mget (mset m k v) k = some v := by
  induction m with
  | nil => simp [mset, mget]
  | cons hd tl ih =>
    obtain ⟨a, b⟩ := hd
    by_cases h : a = k <;> simp [mset, mget, h, ih]

theorem mget_mset_ne (m : List (String × β)) (k k' : String) (v : β)
    (h : k ≠ k') : mget (mset m k v) k' = mget m k' := by
  induction m with
  | nil => simp [mset, mget, h]
  | cons hd tl ih =>
    obtain ⟨a, b⟩ := hd
    by_cases ha : a = k
    · subst ha
      simp [mset, mget, h]
    · simp only [mset, if_neg ha]
      by_cases hb : a = k' <;> simp [mget, hb, ih]

theorem mset_mset_self (m : List (String × β)) (k : String) (v v' : β) :
    mset (mset m k v) k v' = mset m k v' := by
  induction m with
  | nil => simp [mset]
  | cons hd tl ih =>
    obtain ⟨a, b⟩ := hd
    by_cases h : a = k <;> simp [mset, h, ih]

theorem mset_eq_self_of_mget (m : List (String × β)) (k : String) (v : β)
    (h : mget m k = some v) : mset m k v = m := by
  induction m with
  | nil => simp [mget] at h
  | cons hd tl ih =>
    obtain ⟨a, b⟩ := hd
    by_cases ha : a = k
    · subst ha
      simp [mget] at h
      simp [mset, h]
    · simp only [mget, if_neg ha] at h
      simp [mset, ha, ih h]

theorem mget_mdelete_self (m : List (String × β)) (k : String) :
    mget (mdelete m k) k = none := by
  induction m with
  | nil => simp [mdelete, mget]
  | cons hd tl ih =>
    obtain ⟨a, b⟩ := hd
    by_cases h : a = k <;> simp [mdelete, mget, h, ih]

theorem mget_mdelete_ne (m : List (String × β)) (k k' : String)
    (h : k ≠ k') : mget (mdelete m k) k' = mget m k' := by
  induction m with
  | nil => simp [mdelete]
  | cons hd tl ih =>
    obtain ⟨a, b⟩ := hd
    by_cases ha : a = k
    · subst ha
      simp [mdelete, mget, h, ih]
    · by_cases hb : a = k' <;>
        simp [mdelete, mget, ha, hb, Ne.symm h, ih]

theorem mget_isSome_of_mem_mkeys (m : List (String × β)) (k : String)
    (h : k ∈ mkeys m) : (mget m k).isSome := by
  induction m with
  | nil => simp [mkeys] at h
  | cons hd tl ih =>
    obtain ⟨a, b⟩ := hd
    by_cases ha : a = k
    · simp [mget, ha]
    · simp only [mkeys, List.map_cons, List.mem_cons] at h
      rcases h with h | h
      · exact absurd h.symm ha
      · simpa [mget, ha] using ih (by simpa [mkeys] using h)

theorem mem_mkeys_of_mget_isSome (m : List (String × β)) (k : String)
    (h : (mget m k).isSome) : k ∈ mkeys m := by
  induction m with
  | nil => simp [mget] at h
  | cons hd tl ih =>
    obtain ⟨a, b⟩ := hd
    by_cases ha : a = k
    · simp [mkeys, ha]
    · simp only [mget, if_neg ha] at h
      have hk := ih h
      simp only [mkeys, List.map_cons, List.mem_cons]
      right
      simpa [mkeys] using hk

theorem ne_nil_of_mget_isSome (m : List (String × β)) (k : String)
    (h : (mget m k).isSome) : m ≠ [] := by
  intro hm
  subst hm
  simp [mget] at h

theorem isEmpty_false_of_mget_isSome (m : List (String × β)) (k : String)
    (h : (mget m k).isSome) : m.isEmpty = false := by
  cases m with
  | nil => simp [mget] at h
  | cons hd tl => simp [List.isEmpty]

end MapLemmas

section FanoutLemmas

variable {α γ : Type}

theorem drainKey_notifs (v : γ) (m : Reg) (k : String)
    (ns : List (Nat × Outcome γ)) :
    ∃ l, (drainKey v m k ns).2 = ns ++ l := by
  unfold drainKey
  cases mget m k <;> simp

theorem drainKey_mget_ne (v : γ) (m : Reg) (k k' : String)
    (ns : List (Nat × Outcome γ)) (h : k' ≠ k) :
    mget (drainKey v m k ns).1 k' = mget m k' := by
  unfold drainKey
  cases mget m k <;> simp [mget_mdelete_ne m k k' (Ne.symm h)]

theorem drainKey_mem (v : γ) (m : Reg) (k : String)
    (ns : List (Nat × Outcome γ)) (ws : List Nat)
    (h : mget m k = some ws) :
    ∀ w ∈ ws, (w, Outcome.fulfilled v) ∈ (drainKey v m k ns).2 := by
  intro w hw
  unfold drainKey
  rw [h]
  simp only [List.mem_append]
  exact Or.inr (List.mem_map_of_mem _ hw)

theorem processNode_notifs_mono (found : BulkNode α → γ) (acc : Fanout γ)
    (node : Option (BulkNode α)) :
    ∃ l, (processNode found acc node).notifs = acc.notifs ++ l := by
  rcases node with _ | n
  · exact ⟨[], by simp [processNode]⟩
  obtain ⟨oid, ologin, p⟩ := n
  rcases oid with _ | nid
  · exact ⟨[], by simp [processNode]⟩
  by_cases hid : nid = ""
  · exact ⟨[], by simp [processNode, hid]⟩
  obtain ⟨l1, h1⟩ :=
    drainKey_notifs (found ⟨some nid, ologin, p⟩) acc.wIds nid acc.notifs
  rcases ologin with _ | l
  · exact ⟨l1, by simp [processNode, hid, h1.symm]⟩
  obtain ⟨l2, h2⟩ :=
    drainKey_notifs (found ⟨some nid, some l, p⟩) acc.wLogins l
      (drainKey (found ⟨some nid, some l, p⟩) acc.wIds nid acc.notifs).2
  refine ⟨l1 ++ l2, ?_⟩
  simp only [processNode, if_neg hid]
  rw [h2, h1, List.append_assoc]

theorem processNode_notifs_mem (found : BulkNode α → γ) (acc : Fanout γ)
    (node : Option (BulkNode α)) {x : Nat × Outcome γ} (hx : x ∈ acc.notifs) :
    x ∈ (processNode found acc node).notifs := by
  obtain ⟨l, hl⟩ := processNode_notifs_mono found acc node
  rw [hl]
  exact List.mem_append_left _ hx

theorem processNode_wIds_of_not_match (found : BulkNode α → γ) (acc : Fanout γ)
    (node : Option (BulkNode α)) (k : String)
    (h : idMatchB node k = false) :
    mget (processNode found acc node).wIds k = mget acc.wIds k := by
  rcases node with _ | n
  · simp [processNode]
  obtain ⟨oid, ologin, p⟩ := n
  rcases oid with _ | nid
  · simp [processNode]
  by_cases hid : nid = ""
  · simp [processNode, hid]
  have hne : k ≠ nid := by
    intro hkn
    subst hkn
    simp [idMatchB, hid] at h
  rcases ologin with _ | l <;>
    simp [processNode, hid, drainKey_mget_ne _ _ _ _ _ hne]

theorem processNode_idSet_of_not_match (found : BulkNode α → γ)
    (acc : Fanout γ) (node : Option (BulkNode α)) (k : String)
    (h : idMatchB node k = false) :
    (k ∈ (processNode found acc node).idSet ↔ k ∈ acc.idSet) := by
  rcases node with _ | n
  · simp [processNode]
  obtain ⟨oid, ologin, p⟩ := n
  rcases oid with _ | nid
  · simp [processNode]
  by_cases hid : nid = ""
  · simp [processNode, hid]
  have hne : k ≠ nid := by
    intro hkn
    subst hkn
    simp [idMatchB, hid] at h
  rcases ologin with _ | l <;>
    simp [processNode, hid, List.mem_erase_of_ne hne]

theorem processNode_idSet_subset (found : BulkNode α → γ) (acc : Fanout γ)
    (node : Option (BulkNode α)) (k : String)
    (h : k ∈ (processNode found acc node).idSet) : k ∈ acc.idSet := by
  rcases node with _ | n
  · simpa [processNode] using h
  obtain ⟨oid, ologin, p⟩ := n
  rcases oid with _ | nid
  · simpa [processNode] using h
  by_cases hid : nid = ""
  · simpa [processNode, hid] using h
  rcases ologin with _ | l <;>
    · simp only [processNode, if_neg hid] at h
      exact (List.erase_sublist _ _).mem h

theorem processNode_wLogins_of_not_match (found : BulkNode α → γ)
    (acc : Fanout γ) (node : Option (BulkNode α)) (k : String)
    (h : loginMatchB node k = false) :
    mget (processNode found acc node).wLogins k = mget acc.wLogins k := by
  rcases node with _ | n
  · simp [processNode]
  obtain ⟨oid, ologin, p⟩ := n
  rcases oid with _ | nid
  · simp [processNode]
  by_cases hid : nid = ""
  · simp [processNode, hid]
  rcases ologin with _ | l
  · simp [processNode, hid]
  have hne : k ≠ l := by
    intro hkl
    subst hkl
    simp [loginMatchB, truthy, hid] at h
  simp [processNode, hid, drainKey_mget_ne _ _ _ _ _ hne]

theorem processNode_loginSet_of_not_match (found : BulkNode α → γ)
    (acc : Fanout γ) (node : Option (BulkNode α)) (k : String)
    (h : loginMatchB node k = false) :
    (k ∈ (processNode found acc node).loginSet ↔ k ∈ acc.loginSet) := by
  rcases node with _ | n
  · simp [processNode]
  obtain ⟨oid, ologin, p⟩ := n
  rcases oid with _ | nid
  · simp [processNode]
  by_cases hid : nid = ""
  · simp [processNode, hid]
  rcases ologin with _ | l
  · simp [processNode, hid]
  have hne : k ≠ l := by
    intro hkl
    subst hkl
    simp [loginMatchB, truthy, hid] at h
  simp [processNode, hid, List.mem_erase_of_ne hne]

theorem processNode_match_id (found : BulkNode α → γ) (acc : Fanout γ)
    (n : BulkNode α) (k : String) (ws : List Nat)
    (hm : idMatchB (some n) k = true)
    (hws : mget acc.wIds k = some ws) :
    ∀ w ∈ ws, (w, Outcome.fulfilled (found n)) ∈
      (processNode found acc (some n)).notifs := by
  intro w hw
  obtain ⟨oid, ologin, p⟩ := n
  simp only [idMatchB, Bool.and_eq_true, beq_iff_eq, Bool.not_eq_eq_eq_not,
    Bool.not_true, beq_eq_false_iff_ne, ne_eq] at hm
  obtain ⟨hoid, hk⟩ := hm
  subst hoid
  have hmem := drainKey_mem (found ⟨some k, ologin, p⟩) acc.wIds k acc.notifs
    ws hws w hw
  rcases ologin with _ | l
  · simpa [processNode, hk] using hmem
  · obtain ⟨l2, h2⟩ :=
      drainKey_notifs (found ⟨some k, some l, p⟩) acc.wLogins l
        (drainKey (found ⟨some k, some l, p⟩) acc.wIds k acc.notifs).2
    simp only [processNode, if_neg hk]
    rw [h2]
    exact List.mem_append_left _ hmem

theorem processNode_match_login (found : BulkNode α → γ) (acc : Fanout γ)
    (n : BulkNode α) (k : String) (ws : List Nat)
    (hm : loginMatchB (some n) k = true)
    (hws : mget acc.wLogins k = some ws) :
    ∀ w ∈ ws, (w, Outcome.fulfilled (found n)) ∈
      (processNode found acc (some n)).notifs := by
  intro w hw
  obtain ⟨oid, ologin, p⟩ := n
  simp only [loginMatchB, Bool.and_eq_true, beq_iff_eq] at hm
  obtain ⟨htr, hlog⟩ := hm
  subst hlog
  rcases oid with _ | nid
  · simp [truthy] at htr
  have hid : ¬ nid = "" := by
    simpa [truthy] using htr
  have hmem := drainKey_mem (found ⟨some nid, some k, p⟩) acc.wLogins k
    (drainKey (found ⟨some nid, some k, p⟩) acc.wIds nid acc.notifs).2 ws hws
    w hw
  simpa [processNode, hid] using hmem

end FanoutLemmas

section LoopLemmas

variable {α γ : Type}

theorem processNodes_notifs_mem (found : BulkNode α → γ)
    (ns : List (Option (BulkNode α))) (acc : Fanout γ)
    {x : Nat × Outcome γ} (hx : x ∈ acc.notifs) :
    x ∈ (processNodes found ns acc).notifs := by
  induction ns generalizing acc with
  | nil => exact hx
  | cons node rest ih =>
    exact ih _ (processNode_notifs_mem found acc node hx)

theorem processNodes_wIds_of_no_match (found : BulkNode α → γ)
    (ns : List (Option (BulkNode α))) (acc : Fanout γ) (k : String)
    (h : ∀ node ∈ ns, idMatchB node k = false) :
    mget (processNodes found ns acc).wIds k = mget acc.wIds k := by
  induction ns generalizing acc with
  | nil => rfl
  | cons node rest ih =>
    rw [processNodes, ih _ (fun x hx => h x (List.mem_cons_of_mem _ hx))]
    exact processNode_wIds_of_not_match found acc node k
      (h node (List.mem_cons_self _ _))

theorem processNodes_idSet_of_no_match (found : BulkNode α → γ)
    (ns : List (Option (BulkNode α))) (acc : Fanout γ) (k : String)
    (h : ∀ node ∈ ns, idMatchB node k = false) :
    (k ∈ (processNodes found ns acc).idSet ↔ k ∈ acc.idSet) := by
  induction ns generalizing acc with
  | nil => rfl
  | cons node rest ih =>
    rw [processNodes]
    rw [ih _ (fun x hx => h x (List.mem_cons_of_mem _ hx))]
    exact processNode_idSet_of_not_match found acc node k
      (h node (List.mem_cons_self _ _))

theorem processNodes_idSet_subset (found : BulkNode α → γ)
    (ns : List (Option (BulkNode α))) (acc : Fanout γ) (k : String)
    (h : k ∈ (processNodes found ns acc).idSet) : k ∈ acc.idSet := by
  induction ns generalizing acc with
  | nil => exact h
  | cons node rest ih =>
    exact processNode_idSet_subset found acc node k (ih _ h)

theorem processNodes_wLogins_of_no_match (found : BulkNode α → γ)
    (ns : List (Option (BulkNode α))) (acc : Fanout γ) (k : String)
    (h : ∀ node ∈ ns, loginMatchB node k = false) :
    mget (processNodes found ns acc).wLogins k = mget acc.wLogins k := by
  induction ns generalizing acc with
  | nil => rfl
  | cons node rest ih =>
    rw [processNodes, ih _ (fun x hx => h x (List.mem_cons_of_mem _ hx))]
    exact processNode_wLogins_of_not_match found acc node k
      (h node (List.mem_cons_self _ _))

theorem processNodes_loginSet_of_no_match (found : BulkNode α → γ)
    (ns : List (Option (BulkNode α))) (acc : Fanout γ) (k : String)
    (h : ∀ node ∈ ns, loginMatchB node k = false) :
    (k ∈ (processNodes found ns acc).loginSet ↔ k ∈ acc.loginSet) := by
  induction ns generalizing acc with
  | nil => rfl
  | cons node rest ih =>
    rw [processNodes]
    rw [ih _ (fun x hx => h x (List.mem_cons_of_mem _ hx))]
    exact processNode_loginSet_of_not_match found acc node k
      (h node (List.mem_cons_self _ _))

theorem processNodes_fulfill_firstId (found : BulkNode α → γ)
    (ns : List (Option (BulkNode α))) (acc : Fanout γ) (k : String)
    (n : BulkNode α) (ws : List Nat)
    (hfirst : firstIdMatch k ns = some n)
    (hws : mget acc.wIds k = some ws) :
    ∀ w ∈ ws, (w, Outcome.fulfilled (found n)) ∈
      (processNodes found ns acc).notifs := by
  induction ns generalizing acc with
  | nil => simp [firstIdMatch] at hfirst
  | cons node rest ih =>
    intro w hw
    by_cases hm : idMatchB node k = true
    · rw [firstIdMatch, if_pos hm] at hfirst
      subst hfirst
      exact processNodes_notifs_mem found rest _
        (processNode_match_id found acc n k ws hm hws w hw)
    · rw [firstIdMatch, if_neg hm] at hfirst
      have hkeep : mget (processNode found acc node).wIds k = some ws := by
        rw [processNode_wIds_of_not_match found acc node k
          (Bool.not_eq_true _ ▸ hm : idMatchB node k = false)]
        exact hws
      exact ih _ hfirst hkeep w hw

theorem processNodes_fulfill_firstLogin (found : BulkNode α → γ)
    (ns : List (Option (BulkNode α))) (acc : Fanout γ) (k : String)
    (n : BulkNode α) (ws : List Nat)
    (hfirst : firstLoginMatch k ns = some n)
    (hws : mget acc.wLogins k = some ws) :
    ∀ w ∈ ws, (w, Outcome.fulfilled (found n)) ∈
      (processNodes found ns acc).notifs := by
  induction ns generalizing acc with
  | nil => simp [firstLoginMatch] at hfirst
  | cons node rest ih =>
    intro w hw
    by_cases hm : loginMatchB node k = true
    · rw [firstLoginMatch, if_pos hm] at hfirst
      subst hfirst
      exact processNodes_notifs_mem found rest _
        (processNode_match_login found acc n k ws hm hws w hw)
    · rw [firstLoginMatch, if_neg hm] at hfirst
      have hkeep : mget (processNode found acc node).wLogins k = some ws := by
        rw [processNode_wLogins_of_not_match found acc node k
          (Bool.not_eq_true _ ▸ hm : loginMatchB node k = false)]
        exact hws
      exact ih _ hfirst hkeep w hw

theorem fulfillLeftover_mem (notFound : γ) (keys : List String) (m : Reg)
    (k : String) (ws : List Nat) (hk : k ∈ keys)
    (hws : mget m k = some ws) :
    ∀ w ∈ ws, (w, Outcome.fulfilled notFound) ∈
      (fulfillLeftover notFound keys m).2 := by
  induction keys generalizing m with
  | nil => simp at hk
  | cons key rest ih =>
    intro w hw
    by_cases hkey : key = k
    · subst hkey
      rw [fulfillLeftover, hws]
      simp only [List.mem_append]
      exact Or.inl (List.mem_map_of_mem _ hw)
    · have hk' : k ∈ rest := by
        rcases List.mem_cons.mp hk with h | h
        · exact absurd h.symm hkey
        · exact h
      rw [fulfillLeftover]
      cases hkv : mget m key with
      | some l =>
        have hws' : mget (mdelete m key) k = some ws := by
          rw [mget_mdelete_ne m key k hkey]
          exact hws
        simp only [List.mem_append]
        exact Or.inr (ih _ hk' hws' w hw)
      | none => exact ih _ hk' hws w hw

theorem fulfillLeftover_mget_of_not_mem (notFound : γ) (keys : List String)
    (m : Reg) (k : String) (hk : k ∉ keys) :
    mget (fulfillLeftover notFound keys m).1 k = mget m k := by
  induction keys generalizing m with
  | nil => rfl
  | cons key rest ih =>
    have hne : key ≠ k := fun h => hk (h ▸ List.mem_cons_self _ _)
    have hrest : k ∉ rest := fun h => hk (List.mem_cons_of_mem _ h)
    rw [fulfillLeftover]
    cases hkv : mget m key with
    | some l =>
      rw [ih _ hrest, mget_mdelete_ne m key k hne]
    | none => exact ih _ hrest

theorem rejectKeys_mem (keys : List String) (m : Reg) (err : String)
    (k : String) (ws : List Nat) (hk : k ∈ keys)
    (hws : mget m k = some ws) :
    ∀ w ∈ ws, ((w, Outcome.rejected err) : Nat × Outcome γ) ∈
      (rejectKeys keys m err).2 := by
  induction keys generalizing m with
  | nil => simp at hk
  | cons key rest ih =>
    intro w hw
    rw [rejectKeys]
    simp only [List.mem_append]
    by_cases hkey : key = k
    · subst hkey
      rw [hws]
      exact Or.inl (List.mem_map_of_mem _ hw)
    · have hk' : k ∈ rest := by
        rcases List.mem_cons.mp hk with h | h
        · exact absurd h.symm hkey
        · exact h
      have hws' : mget (mdelete m key) k = some ws := by
        rw [mget_mdelete_ne m key k hkey]
        exact hws
      exact Or.inr (ih _ hk' hws' w hw)

theorem rejectKeys_mget_of_not_mem (keys : List String) (m : Reg)
    (err : String) (k : String) (hk : k ∉ keys) :
    mget ((rejectKeys keys m err : Reg × List (Nat × Outcome γ))).1 k =
      mget m k := by
  induction keys generalizing m with
  | nil => rfl
  | cons key rest ih =>
    have hne : key ≠ k := fun h => hk (h ▸ List.mem_cons_self _ _)
    have hrest : k ∉ rest := fun h => hk (List.mem_cons_of_mem _ h)
    rw [rejectKeys]
    simp only
    rw [ih _ hrest, mget_mdelete_ne m key k hne]

theorem rejectKeys_all_rejected (keys : List String) (m : Reg) (err : String) :
    ∀ x ∈ (rejectKeys keys m err : Reg × List (Nat × Outcome γ)).2,
      ∃ w, x = (w, Outcome.rejected err) := by
  induction keys generalizing m with
  | nil => simp [rejectKeys]
  | cons key rest ih =>
    intro x hx
    rw [rejectKeys] at hx
    simp only [List.mem_append] at hx
    rcases hx with hx | hx
    · obtain ⟨w, _, hx⟩ := List.mem_map.mp hx
      exact ⟨w, hx.symm⟩
    · exact ih _ x hx

end LoopLemmas

section CycleLemmas

variable {α γ : Type}

theorem startCycle_of_not_loading (st : SchedState) (h : st.loading = false) :
    startCycle st = ({ st with loading := true }, some (snapshotOf st)) := by
  simp [startCycle, snapshotOf, h]

theorem loadBulkBody_of_not_loading (found : BulkNode α → γ) (notFound : γ)
    (st : SchedState) (h : st.loading = false)
    (resp : Except String (Option (List (Option (BulkNode α))))) :
    loadBulkBody found notFound st resp =
      finishCycle found notFound { st with loading := true }
        (snapshotOf st) resp := by
  rw [loadBulkBody, startCycle_of_not_loading st h]

theorem finishCycle_error_eq (found : BulkNode α → γ) (notFound : γ)
    (st : SchedState) (fl : Flight) (err : String) :
    finishCycle found notFound st fl (.error err) =
      ({ st with
          waiting_ids :=
            (rejectKeys (γ := γ) fl.ids st.waiting_ids err).1,
          waiting_logins :=
            (rejectKeys (γ := γ) fl.logins st.waiting_logins err).1 },
       (rejectKeys (γ := γ) fl.ids st.waiting_ids err).2 ++
         (rejectKeys (γ := γ) fl.logins st.waiting_logins err).2,
       false) := by
  rcases hp : rejectKeys (γ := γ) fl.ids st.waiting_ids err with ⟨wi, ns1⟩
  rcases hq : rejectKeys (γ := γ) fl.logins st.waiting_logins err with ⟨wl, ns2⟩
  simp [finishCycle, hp, hq]

theorem finishCycle_ok_eq (found : BulkNode α → γ) (notFound : γ)
    (st : SchedState) (fl : Flight)
    (nodes : List (Option (BulkNode α))) (acc1 : Fanout γ)
    (hacc : processNodes found nodes
      ⟨fl.ids, fl.logins, st.waiting_ids, st.waiting_logins, []⟩ = acc1) :
    finishCycle found notFound st fl (.ok (some nodes)) =
      ({ waiting_ids := (fulfillLeftover notFound acc1.idSet acc1.wIds).1,
         waiting_logins :=
           (fulfillLeftover notFound acc1.loginSet acc1.wLogins).1,
         loading := false },
       acc1.notifs ++ (fulfillLeftover notFound acc1.idSet acc1.wIds).2 ++
         (fulfillLeftover notFound acc1.loginSet acc1.wLogins).2,
       !(fulfillLeftover notFound acc1.idSet acc1.wIds).1.isEmpty ||
         !(fulfillLeftover notFound acc1.loginSet acc1.wLogins).1.isEmpty) := by
  rcases hp : fulfillLeftover notFound acc1.idSet acc1.wIds with ⟨wi, nsI⟩
  rcases hq : fulfillLeftover notFound acc1.loginSet acc1.wLogins with ⟨wl, nsL⟩
  simp [finishCycle, hacc, hp, hq]

theorem finishCycle_ok_loading (found : BulkNode α → γ) (notFound : γ)
    (st : SchedState) (fl : Flight)
    (nodesOpt : Option (List (Option (BulkNode α)))) :
    (finishCycle found notFound st fl (.ok nodesOpt)).1.loading = false := by
  cases nodesOpt with
  | none =>
    rcases hp : fulfillLeftover notFound
      (⟨fl.ids, fl.logins, st.waiting_ids, st.waiting_logins,
        ([] : List (Nat × Outcome γ))⟩ : Fanout γ).idSet
      (⟨fl.ids, fl.logins, st.waiting_ids, st.waiting_logins, []⟩ :
        Fanout γ).wIds with ⟨wi, nsI⟩
    rcases hq : fulfillLeftover notFound
      (⟨fl.ids, fl.logins, st.waiting_ids, st.waiting_logins,
        ([] : List (Nat × Outcome γ))⟩ : Fanout γ).loginSet
      (⟨fl.ids, fl.logins, st.waiting_ids, st.waiting_logins, []⟩ :
        Fanout γ).wLogins with ⟨wl, nsL⟩
    simp [finishCycle, hp, hq]
  | some nodes =>
    rw [finishCycle_ok_eq found notFound st fl nodes _ rfl]

end CycleLemmas

section SuccessSpecLemmas

variable {α γ : Type}

theorem processNode_loginSet_subset (found : BulkNode α → γ) (acc : Fanout γ)
    (node : Option (BulkNode α)) (k : String)
    (h : k ∈ (processNode found acc node).loginSet) : k ∈ acc.loginSet := by
  rcases node with _ | n
  · simpa [processNode] using h
  obtain ⟨oid, ologin, p⟩ := n
  rcases oid with _ | nid
  · simpa [processNode] using h
  by_cases hid : nid = ""
  · simpa [processNode, hid] using h
  rcases ologin with _ | l
  · simpa [processNode, hid] using h
  · simp only [processNode, if_neg hid] at h
    exact (List.erase_sublist _ _).mem h

theorem processNodes_loginSet_subset (found : BulkNode α → γ)
    (ns : List (Option (BulkNode α))) (acc : Fanout γ) (k : String)
    (h : k ∈ (processNodes found ns acc).loginSet) : k ∈ acc.loginSet := by
  induction ns generalizing acc with
  | nil => exact h
  | cons node rest ih =>
    exact processNode_loginSet_subset found acc node k (ih _ h)

theorem finishCycle_fulfills_matched_id (found : BulkNode α → γ)
    (notFound : γ) (st : SchedState) (fl : Flight)
    (nodes : List (Option (BulkNode α))) (k : String) (n : BulkNode α)
    (ws : List Nat) (hfirst : firstIdMatch k nodes = some n)
    (hws : mget st.waiting_ids k = some ws) :
    ∀ w ∈ ws, (w, Outcome.fulfilled (found n)) ∈
      (finishCycle found notFound st fl (.ok (some nodes))).2.1 := by
  intro w hw
  rw [finishCycle_ok_eq found notFound st fl nodes _ rfl]
  exact List.mem_append_left _ (List.mem_append_left _
    (processNodes_fulfill_firstId found nodes
      ⟨fl.ids, fl.logins, st.waiting_ids, st.waiting_logins, []⟩
      k n ws hfirst hws w hw))

theorem finishCycle_fulfills_matched_login (found : BulkNode α → γ)
    (notFound : γ) (st : SchedState) (fl : Flight)
    (nodes : List (Option (BulkNode α))) (k : String) (n : BulkNode α)
    (ws : List Nat) (hfirst : firstLoginMatch k nodes = some n)
    (hws : mget st.waiting_logins k = some ws) :
    ∀ w ∈ ws, (w, Outcome.fulfilled (found n)) ∈
      (finishCycle found notFound st fl (.ok (some nodes))).2.1 := by
  intro w hw
  rw [finishCycle_ok_eq found notFound st fl nodes _ rfl]
  exact List.mem_append_left _ (List.mem_append_left _
    (processNodes_fulfill_firstLogin found nodes
      ⟨fl.ids, fl.logins, st.waiting_ids, st.waiting_logins, []⟩
      k n ws hfirst hws w hw))

theorem finishCycle_nulls_unmatched_selected_id (found : BulkNode α → γ)
    (notFound : γ) (st : SchedState) (fl : Flight)
    (nodes : List (Option (BulkNode α))) (k : String) (ws : List Nat)
    (hk : k ∈ fl.ids)
    (hnone : ∀ node ∈ nodes, idMatchB node k = false)
    (hws : mget st.waiting_ids k = some ws) :
    ∀ w ∈ ws, (w, Outcome.fulfilled notFound) ∈
      (finishCycle found notFound st fl (.ok (some nodes))).2.1 := by
  intro w hw
  rw [finishCycle_ok_eq found notFound st fl nodes _ rfl]
  have hkin : k ∈ (processNodes found nodes
      ⟨fl.ids, fl.logins, st.waiting_ids, st.waiting_logins, []⟩).idSet :=
    (processNodes_idSet_of_no_match found nodes _ k hnone).mpr hk
  have hkws : mget (processNodes found nodes
      ⟨fl.ids, fl.logins, st.waiting_ids, st.waiting_logins, []⟩).wIds k =
      some ws := by
    rw [processNodes_wIds_of_no_match found nodes _ k hnone]
    exact hws
  exact List.mem_append_left _ (List.mem_append_right _
    (fulfillLeftover_mem notFound _ _ k ws hkin hkws w hw))

theorem finishCycle_nulls_unmatched_selected_login (found : BulkNode α → γ)
    (notFound : γ) (st : SchedState) (fl : Flight)
    (nodes : List (Option (BulkNode α))) (k : String) (ws : List Nat)
    (hk : k ∈ fl.logins)
    (hnone : ∀ node ∈ nodes, loginMatchB node k = false)
    (hws : mget st.waiting_logins k = some ws) :
    ∀ w ∈ ws, (w, Outcome.fulfilled notFound) ∈
      (finishCycle found notFound st fl (.ok (some nodes))).2.1 := by
  intro w hw
  rw [finishCycle_ok_eq found notFound st fl nodes _ rfl]
  have hkin : k ∈ (processNodes found nodes
      ⟨fl.ids, fl.logins, st.waiting_ids, st.waiting_logins, []⟩).loginSet :=
    (processNodes_loginSet_of_no_match found nodes _ k hnone).mpr hk
  have hkws : mget (processNodes found nodes
      ⟨fl.ids, fl.logins, st.waiting_ids, st.waiting_logins, []⟩).wLogins k =
      some ws := by
    rw [processNodes_wLogins_of_no_match found nodes _ k hnone]
    exact hws
  exact List.mem_append_right _
    (fulfillLeftover_mem notFound _ _ k ws hkin hkws w hw)

theorem finishCycle_wIds_untouched (found : BulkNode α → γ) (notFound : γ)
    (st : SchedState) (fl : Flight)
    (nodes : List (Option (BulkNode α))) (k : String)
    (hk : k ∉ fl.ids)
    (hnone : ∀ node ∈ nodes, idMatchB node k = false) :
    mget (finishCycle found notFound st fl
      (.ok (some nodes))).1.waiting_ids k = mget st.waiting_ids k := by
  rw [finishCycle_ok_eq found notFound st fl nodes _ rfl]
  have hnotin : k ∉ (processNodes found nodes
      ⟨fl.ids, fl.logins, st.waiting_ids, st.waiting_logins, []⟩).idSet :=
    fun h => hk (processNodes_idSet_subset found nodes _ k h)
  show mget (fulfillLeftover notFound _ _).1 k = _
  rw [fulfillLeftover_mget_of_not_mem _ _ _ _ hnotin]
  exact processNodes_wIds_of_no_match found nodes _ k hnone

theorem finishCycle_wLogins_untouched (found : BulkNode α → γ) (notFound : γ)
    (st : SchedState) (fl : Flight)
    (nodes : List (Option (BulkNode α))) (k : String)
    (hk : k ∉ fl.logins)
    (hnone : ∀ node ∈ nodes, loginMatchB node k = false) :
    mget (finishCycle found notFound st fl
      (.ok (some nodes))).1.waiting_logins k = mget st.waiting_logins k := by
  rw [finishCycle_ok_eq found notFound st fl nodes _ rfl]
  have hnotin : k ∉ (processNodes found nodes
      ⟨fl.ids, fl.logins, st.waiting_ids, st.waiting_logins, []⟩).loginSet :=
    fun h => hk (processNodes_loginSet_subset found nodes _ k h)
  show mget (fulfillLeftover notFound _ _).1 k = _
  rw [fulfillLeftover_mget_of_not_mem _ _ _ _ hnotin]
  exact processNodes_wLogins_of_no_match found nodes _ k hnone

theorem finishCycle_rearm_of_id_left (found : BulkNode α → γ) (notFound : γ)
    (st : SchedState) (fl : Flight)
    (nodes : List (Option (BulkNode α))) (k : String)
    (hk : k ∉ fl.ids)
    (hnone : ∀ node ∈ nodes, idMatchB node k = false)
    (hpending : (mget st.waiting_ids k).isSome) :
    (finishCycle found notFound st fl (.ok (some nodes))).2.2 = true := by
  have hsome : (mget (finishCycle found notFound st fl
      (.ok (some nodes))).1.waiting_ids k).isSome := by
    rw [finishCycle_wIds_untouched found notFound st fl nodes k hk hnone]
    exact hpending
  have hne := isEmpty_false_of_mget_isSome _ k hsome
  rw [finishCycle_ok_eq found notFound st fl nodes _ rfl] at hne ⊢
  simp only at hne ⊢
  rw [hne]
  simp

theorem finishCycle_rearm_of_login_left (found : BulkNode α → γ)
    (notFound : γ) (st : SchedState) (fl : Flight)
    (nodes : List (Option (BulkNode α))) (k : String)
    (hk : k ∉ fl.logins)
    (hnone : ∀ node ∈ nodes, loginMatchB node k = false)
    (hpending : (mget st.waiting_logins k).isSome) :
    (finishCycle found notFound st fl (.ok (some nodes))).2.2 = true := by
  have hsome : (mget (finishCycle found notFound st fl
      (.ok (some nodes))).1.waiting_logins k).isSome := by
    rw [finishCycle_wLogins_untouched found notFound st fl nodes k hk hnone]
    exact hpending
  have hne := isEmpty_false_of_mget_isSome _ k hsome
  rw [finishCycle_ok_eq found notFound st fl nodes _ rfl] at hne ⊢
  simp only at hne ⊢
  rw [hne]
  simp

end SuccessSpecLemmas

section ErrorSpecLemmas

variable {α γ : Type}

theorem finishCycle_error_rejects_id (found : BulkNode α → γ) (notFound : γ)
    (st : SchedState) (fl : Flight) (err : String) (k : String)
    (ws : List Nat) (hk : k ∈ fl.ids)
    (hws : mget st.waiting_ids k = some ws) :
    ∀ w ∈ ws, (w, Outcome.rejected err) ∈
      (finishCycle found notFound st fl (.error err)).2.1 := by
  intro w hw
  rw [finishCycle_error_eq]
  exact List.mem_append_left _
    (rejectKeys_mem fl.ids st.waiting_ids err k ws hk hws w hw)

theorem finishCycle_error_rejects_login (found : BulkNode α → γ)
    (notFound : γ) (st : SchedState) (fl : Flight) (err : String)
    (k : String) (ws : List Nat) (hk : k ∈ fl.logins)
    (hws : mget st.waiting_logins k = some ws) :
    ∀ w ∈ ws, (w, Outcome.rejected err) ∈
      (finishCycle found notFound st fl (.error err)).2.1 := by
  intro w hw
  rw [finishCycle_error_eq]
  exact List.mem_append_right _
    (rejectKeys_mem fl.logins st.waiting_logins err k ws hk hws w hw)

theorem finishCycle_error_wIds_untouched (found : BulkNode α → γ)
    (notFound : γ) (st : SchedState) (fl : Flight) (err : String)
    (k : String) (hk : k ∉ fl.ids) :
    mget (finishCycle found notFound st fl
      (.error err)).1.waiting_ids k = mget st.waiting_ids k := by
  rw [finishCycle_error_eq]
  exact rejectKeys_mget_of_not_mem fl.ids st.waiting_ids err k hk

theorem finishCycle_error_wLogins_untouched (found : BulkNode α → γ)
    (notFound : γ) (st : SchedState) (fl : Flight) (err : String)
    (k : String) (hk : k ∉ fl.logins) :
    mget (finishCycle found notFound st fl
      (.error err)).1.waiting_logins k = mget st.waiting_logins k := by
  rw [finishCycle_error_eq]
  exact rejectKeys_mget_of_not_mem fl.logins st.waiting_logins err k hk

theorem finishCycle_error_all_rejected (found : BulkNode α → γ)
    (notFound : γ) (st : SchedState) (fl : Flight) (err : String) :
    ∀ x ∈ (finishCycle found notFound st fl (.error err)).2.1,
      ∃ w, x = (w, Outcome.rejected err) := by
  intro x hx
  rw [finishCycle_error_eq] at hx
  rcases List.mem_append.mp hx with h | h
  · exact rejectKeys_all_rejected fl.ids st.waiting_ids err x h
  · exact rejectKeys_all_rejected fl.logins st.waiting_logins err x h

theorem finishCycle_error_loading (found : BulkNode α → γ) (notFound : γ)
    (st : SchedState) (fl : Flight) (err : String) :
    (finishCycle found notFound st fl (.error err)).1.loading =
      st.loading := by
  rw [finishCycle_error_eq]

theorem loadTagsBody_error_eq (tst : TagState) (err : String)
    (h : tst.loading_tags = false) :
    loadTagsBody tst (.error err) =
      .ok { tst with
            loading_tags := true,
            waiting_tags := (rejectKeys (γ := Option TagRecord)
              (tagSelected tst) tst.waiting_tags err).1 }
        (rejectKeys (γ := Option TagRecord)
          (tagSelected tst) tst.waiting_tags err).2
        false := by
  rcases hp : rejectKeys (γ := Option TagRecord)
    (tagSelected tst) tst.waiting_tags err with ⟨wt, ns⟩
  simp only [loadTagsBody, h, Bool.false_eq_true, if_false]
  rw [show ((mkeys ({ tst with loading_tags := true } :
    TagState).waiting_tags).take 50) = tagSelected tst from rfl]
  rw [hp]

end ErrorSpecLemmas

/-- C3: when the remote query of a batch cycle fails (the transport adapter
throws), every waiter registered for every key selected for that cycle is
rejected with the same error, every notification of the failed cycle is a
rejection with that error, and the failed cycle leaves the waiter
registries for unselected keys — and, for the tags cycle, the tag cache —
unchanged.  The first conjunct covers `_loadUsers` and `_loadStreams` (both
are instances of `loadBulkBody`), the second `_loadTags`. -/
theorem transport_failure_rejects_selected_only :
    (∀ (α γ : Type) (found : BulkNode α → γ) (notFound : γ)
      (st : SchedState) (err : String), st.loading = false →
        (∀ k ∈ (snapshotOf st).ids, ∀ ws, mget st.waiting_ids k = some ws →
          ∀ w ∈ ws, (w, Outcome.rejected err) ∈
            (loadBulkBody found notFound st (.error err)).2.1) ∧
        (∀ k ∈ (snapshotOf st).logins, ∀ ws,
          mget st.waiting_logins k = some ws →
          ∀ w ∈ ws, (w, Outcome.rejected err) ∈
            (loadBulkBody found notFound st (.error err)).2.1) ∧
        (∀ k, k ∉ (snapshotOf st).ids →
          mget (loadBulkBody found notFound st
            (.error err)).1.waiting_ids k = mget st.waiting_ids k) ∧
        (∀ k, k ∉ (snapshotOf st).logins →
          mget (loadBulkBody found notFound st
            (.error err)).1.waiting_logins k = mget st.waiting_logins k) ∧
        (∀ x ∈ (loadBulkBody found notFound st (.error err)).2.1,
          ∃ w, x = (w, Outcome.rejected err))) ∧
    (∀ (tst : TagState) (err : String), tst.loading_tags = false →
        (loadTagsBody tst (.error err)).state.tag_cache = tst.tag_cache ∧
        (∀ k ∈ tagSelected tst, ∀ ws, mget tst.waiting_tags k = some ws →
          ∀ w ∈ ws, (w, Outcome.rejected err) ∈
            (loadTagsBody tst (.error err)).sent) ∧
        (∀ k, k ∉ tagSelected tst →
          mget (loadTagsBody tst (.error err)).state.waiting_tags k =
            mget tst.waiting_tags k)) := by
  constructor
  · intro α γ found notFound st err hload
    rw [loadBulkBody_of_not_loading found notFound st hload]
    exact ⟨fun k hk ws hws =>
        finishCycle_error_rejects_id found notFound _ _ err k ws hk hws,
      fun k hk ws hws =>
        finishCycle_error_rejects_login found notFound _ _ err k ws hk hws,
      fun k hk =>
        finishCycle_error_wIds_untouched found notFound _ _ err k hk,
      fun k hk =>
        finishCycle_error_wLogins_untouched found notFound _ _ err k hk,
      finishCycle_error_all_rejected found notFound _ _ err⟩
  · intro tst err hload
    rw [loadTagsBody_error_eq tst err hload]
    refine ⟨rfl, fun k hk ws hws w hw => ?_, fun k hk => ?_⟩
    · exact rejectKeys_mem (tagSelected tst) tst.waiting_tags err
        k ws hk hws w hw
    · exact rejectKeys_mget_of_not_mem (tagSelected tst)
        tst.waiting_tags err k hk

/-- C2 counterexample: with fifty pending id keys ("0".."49") and the
pending login key "foo", the cycle selects only the fifty ids (the login is
NOT selected), yet a successful response whose entity for requested id "0"
carries login "foo" fulfills the waiter on the unselected key "foo" and
removes it from the registry — so "keys not selected for the cycle and
their waiters are left untouched" fails on the code. -/
theorem success_cycle_touches_unselected_login_key :
    ("foo" ∉ (snapshotOf wideSched).logins) ∧
    mget wideSched.waiting_logins "foo" = some [99] ∧
    ((99, Outcome.fulfilled (some wideNode)) ∈
      (loadUsersBody wideSched (.ok (some [some wideNode]))).2.1) ∧
    mget (loadUsersBody wideSched
      (.ok (some [some wideNode]))).1.waiting_logins "foo" = none := by
  decide

/-- C2 (amended): on a successful batch response, every waiter on a key
whose entity appears in the response — selected or not — is fulfilled with
the (first) matching entity's value, every waiter on a selected key with no
matching entity is fulfilled with the explicit not-found value, and keys
not selected for the cycle that match no response entity are left untouched
for the next cycle.  Instantiating `found` recovers `_loadUsers`
(entity itself) and `_loadStreams` (`node.stream`). -/
theorem success_cycle_fanout_spec (α γ : Type) (found : BulkNode α → γ)
    (notFound : γ) (st : SchedState) (hload : st.loading = false)
    (nodes : List (Option (BulkNode α))) :
    (∀ (k : String) (n : BulkNode α), firstIdMatch k nodes = some n →
      ∀ ws, mget st.waiting_ids k = some ws → ∀ w ∈ ws,
        (w, Outcome.fulfilled (found n)) ∈
          (loadBulkBody found notFound st (.ok (some nodes))).2.1) ∧
    (∀ (k : String) (n : BulkNode α), firstLoginMatch k nodes = some n →
      ∀ ws, mget st.waiting_logins k = some ws → ∀ w ∈ ws,
        (w, Outcome.fulfilled (found n)) ∈
          (loadBulkBody found notFound st (.ok (some nodes))).2.1) ∧
    (∀ k ∈ (snapshotOf st).ids,
      (∀ node ∈ nodes, idMatchB node k = false) →
      ∀ ws, mget st.waiting_ids k = some ws → ∀ w ∈ ws,
        (w, Outcome.fulfilled notFound) ∈
          (loadBulkBody found notFound st (.ok (some nodes))).2.1) ∧
    (∀ k ∈ (snapshotOf st).logins,
      (∀ node ∈ nodes, loginMatchB node k = false) →
      ∀ ws, mget st.waiting_logins k = some ws → ∀ w ∈ ws,
        (w, Outcome.fulfilled notFound) ∈
          (loadBulkBody found notFound st (.ok (some nodes))).2.1) ∧
    (∀ k, k ∉ (snapshotOf st).ids →
      (∀ node ∈ nodes, idMatchB node k = false) →
      mget (loadBulkBody found notFound st
        (.ok (some nodes))).1.waiting_ids k = mget st.waiting_ids k) ∧
    (∀ k, k ∉ (snapshotOf st).logins →
      (∀ node ∈ nodes, loginMatchB node k = false) →
      mget (loadBulkBody found notFound st
        (.ok (some nodes))).1.waiting_logins k = mget st.waiting_logins k) := by
  rw [loadBulkBody_of_not_loading found notFound st hload]
  exact ⟨fun k n hf ws hws =>
      finishCycle_fulfills_matched_id found notFound _ _ nodes k n ws hf hws,
    fun k n hf ws hws =>
      finishCycle_fulfills_matched_login found notFound _ _ nodes k n ws hf hws,
    fun k hk hnone ws hws =>
      finishCycle_nulls_unmatched_selected_id found notFound _ _ nodes
        k ws hk hnone hws,
    fun k hk hnone ws hws =>
      finishCycle_nulls_unmatched_selected_login found notFound _ _ nodes
        k ws hk hnone hws,
    fun k hk hnone =>
      finishCycle_wIds_untouched found notFound _ _ nodes k hk hnone,
    fun k hk hnone =>
      finishCycle_wLogins_untouched found notFound _ _ nodes k hk hnone⟩

/-- Witness for `success_cycle_fanout_spec` at the spec's own example:
pending ids 1 and 2 and login "foo"; the response has entities for id 1 and
login "foo" but not id 2; id 1 and "foo" resolve with their entities and
id 2 resolves with the explicit null. -/
theorem success_cycle_fanout_spec_witness :
    ((0, Outcome.fulfilled (some exNodeA)) ∈
      (loadUsersBody exSched
        (.ok (some [some exNodeA, some exNodeFoo]))).2.1) ∧
    ((2, Outcome.fulfilled (some exNodeFoo)) ∈
      (loadUsersBody exSched
        (.ok (some [some exNodeA, some exNodeFoo]))).2.1) ∧
    ((1, Outcome.fulfilled (none : Option (BulkNode Unit))) ∈
      (loadUsersBody exSched
        (.ok (some [some exNodeA, some exNodeFoo]))).2.1) := by
  refine ⟨?_, ?_, ?_⟩
  · exact (success_cycle_fanout_spec Unit (Option (BulkNode Unit))
      (fun n => some n) none exSched rfl
      [some exNodeA, some exNodeFoo]).1 "1" exNodeA (by decide)
      [0] (by decide) 0 (by decide)
  · exact (success_cycle_fanout_spec Unit (Option (BulkNode Unit))
      (fun n => some n) none exSched rfl
      [some exNodeA, some exNodeFoo]).2.1 "foo" exNodeFoo (by decide)
      [2] (by decide) 2 (by decide)
  · exact (success_cycle_fanout_spec Unit (Option (BulkNode Unit))
      (fun n => some n) none exSched rfl
      [some exNodeA, some exNodeFoo]).2.2.1 "2" (by decide) (by decide)
      [1] (by decide) 1 (by decide)

/-- Witness for `transport_failure_rejects_selected_only` at a concrete
two-key users state and a one-key tags state. -/
theorem transport_failure_rejects_selected_only_witness :
    ("1" ∈ (snapshotOf stuckUsers).ids) ∧
    ((0, Outcome.rejected "network") ∈
      (loadUsersBody (α := Unit) stuckUsers (.error "network")).2.1) ∧
    (loadTagsBody tagsWaitingSt (.error "boom")).state.tag_cache =
      tagsWaitingSt.tag_cache := by
  refine ⟨by decide, ?_, ?_⟩
  · exact (transport_failure_rejects_selected_only.1 Unit
      (Option (BulkNode Unit)) (fun n => some n) none stuckUsers
      "network" rfl).1 "1" (by decide) [0] (by decide) 0 (by decide)
  · exact (transport_failure_rejects_selected_only.2 tagsWaitingSt
      "boom" rfl).1

theorem exists_not_mem_take {l : List String} {n : Nat} (hnd : l.Nodup)
    (hlen : n < l.length) : ∃ k, k ∈ l ∧ k ∉ l.take n := by
  have hne : l.drop n ≠ [] := by
    rw [ne_eq, List.drop_eq_nil_iff]
    omega
  refine ⟨(l.drop n).head hne, ?_, ?_⟩
  · exact (List.drop_sublist n l).subset (List.head_mem hne)
  · intro hmem
    exact List.disjoint_take_drop hnd le_rfl hmem (List.head_mem hne)

set_option maxRecDepth 16384 in
/-- C5 counterexample: the claim's consequence "with more than 50 distinct
pending keys, at least two sequential cycles run" fails on the code.  With
51 distinct pending keys (fifty ids "0".."49" plus login "foo"; all keys
pairwise distinct) the cycle selects only the fifty ids, but the response
entity for requested id "0" carries the pending — unselected — login
"foo", so that waiter is drained early: after one successful cycle both
registries are empty and the re-arm check returns false, and no second
cycle runs. -/
theorem single_cycle_can_drain_over_50_keys :
    ((mkeys wideSched.waiting_ids).length +
      (mkeys wideSched.waiting_logins).length = 51) ∧
    ((mkeys wideSched.waiting_ids ++ mkeys wideSched.waiting_logins).Nodup) ∧
    ((loadUsersBody wideSched (.ok (some wideResp))).2.2 = false) ∧
    ((loadUsersBody wideSched (.ok (some wideResp))).1.waiting_ids = []) ∧
    ((loadUsersBody wideSched
      (.ok (some wideResp))).1.waiting_logins = []) := by
  decide

/-- C5 (amended): a started batch cycle selects at most 50 keys — up to 50
pending id-space keys in insertion order, login-space keys filling the
remaining capacity only when fewer than 50 ids are pending (so the whole
id backlog is exhausted before any login is drawn) — and, with more than
50 distinct pending keys, provided every response entity matches only
selected keys (its id among the selected ids, its login among the selected
logins or not a pending login key), the successful cycle leaves pending
keys behind and passes the re-arm check, so a further cycle (itself
bounded by the same ≤50 selection) runs.  Without that proviso a response
entity for a selected key can resolve an unselected pending key early
(see the counterexample above) and drain the whole backlog in one cycle. -/
theorem batch_selection_bounded_ids_first (α γ : Type)
    (found : BulkNode α → γ) (notFound : γ) (st : SchedState)
    (hload : st.loading = false)
    (hnodupI : (mkeys st.waiting_ids).Nodup)
    (hnodupL : (mkeys st.waiting_logins).Nodup) :
    ((startCycle st).2 = some (snapshotOf st)) ∧
    ((snapshotOf st).ids = (mkeys st.waiting_ids).take 50) ∧
    ((snapshotOf st).ids.length ≤ 50) ∧
    ((snapshotOf st).ids.length + (snapshotOf st).logins.length ≤ 50) ∧
    ((snapshotOf st).logins ≠ [] →
      (snapshotOf st).ids = mkeys st.waiting_ids) ∧
    ((mkeys st.waiting_ids).length + (mkeys st.waiting_logins).length > 50 →
      ∀ nodes : List (Option (BulkNode α)),
        (∀ node ∈ nodes, ∀ n : BulkNode α, node = some n →
          truthy n.id = true →
            strval n.id ∈ (snapshotOf st).ids ∧
            (∀ l, n.login = some l → l ∈ (snapshotOf st).logins ∨
              mget st.waiting_logins l = none)) →
        (loadBulkBody found notFound st (.ok (some nodes))).2.2 = true) := by
  have hids : (snapshotOf st).ids = (mkeys st.waiting_ids).take 50 := rfl
  have hlen : (snapshotOf st).ids.length ≤ 50 := by
    rw [hids, List.length_take]
    exact min_le_left _ _
  have hlogins : (snapshotOf st).logins =
      (if 50 - (snapshotOf st).ids.length > 0 then
        (mkeys st.waiting_logins).take (50 - (snapshotOf st).ids.length)
       else []) := rfl
  refine ⟨startCycle_of_not_loading st hload ▸ rfl, hids, hlen, ?_, ?_, ?_⟩
  · rw [hlogins]
    by_cases hrem : 50 - (snapshotOf st).ids.length > 0
    · rw [if_pos hrem]
      have := List.length_take (50 - (snapshotOf st).ids.length)
        (mkeys st.waiting_logins)
      have hmin : ((mkeys st.waiting_logins).take
          (50 - (snapshotOf st).ids.length)).length ≤
          50 - (snapshotOf st).ids.length := by
        rw [this]
        exact min_le_left _ _
      omega
    · rw [if_neg hrem]
      simpa using hlen
  · intro hne
    rw [hlogins] at hne
    by_cases hrem : 50 - (snapshotOf st).ids.length > 0
    · have hlt : (mkeys st.waiting_ids).length < 50 := by
        rw [hids, List.length_take] at hrem
        omega
      rw [hids]
      exact List.take_of_length_le (Nat.le_of_lt hlt)
    · rw [if_neg hrem] at hne
      exact absurd rfl hne
  · intro htot nodes hresp
    rw [loadBulkBody_of_not_loading found notFound st hload]
    by_cases hbig : 50 < (mkeys st.waiting_ids).length
    · obtain ⟨k, hkmem, hknot⟩ := exists_not_mem_take hnodupI hbig
      have hksel : k ∉ (snapshotOf st).ids := by
        rw [hids]
        exact hknot
      have hnone : ∀ node ∈ nodes, idMatchB node k = false := by
        intro node hnmem
        cases node with
        | none => rfl
        | some n =>
          by_cases hni : n.id = some k
          · by_cases hk : k = ""
            · simp [idMatchB, hk]
            · have htr : truthy n.id = true := by
                rw [hni]
                simpa [truthy] using hk
              have hmem := (hresp _ hnmem n rfl htr).1
              rw [hni] at hmem
              exact absurd hmem hksel
          · have : (n.id == some k) = false := beq_eq_false_iff_ne.mpr hni
            simp [idMatchB, this]
      exact finishCycle_rearm_of_id_left found notFound _ _ nodes k hksel
        hnone (mget_isSome_of_mem_mkeys _ _ hkmem)
    · have hidlen : (snapshotOf st).ids.length =
          (mkeys st.waiting_ids).length := by
        rw [hids, List.length_take]
        omega
      have hlrem : 50 - (mkeys st.waiting_ids).length <
          (mkeys st.waiting_logins).length := by omega
      obtain ⟨k, hkmem, hknot⟩ := exists_not_mem_take hnodupL hlrem
      have hksel : k ∉ (snapshotOf st).logins := by
        rw [hlogins]
        by_cases hrem : 50 - (snapshotOf st).ids.length > 0
        · rw [if_pos hrem, hidlen]
          exact hknot
        · rw [if_neg hrem]
          exact List.not_mem_nil k
      have hpending : (mget st.waiting_logins k).isSome :=
        mget_isSome_of_mem_mkeys _ _ hkmem
      have hnone : ∀ node ∈ nodes, loginMatchB node k = false := by
        intro node hnmem
        cases node with
        | none => rfl
        | some n =>
          by_cases htr : truthy n.id = true
          · by_cases hlg : n.login = some k
            · rcases (hresp _ hnmem n rfl htr).2 k hlg with h | h
              · exact absurd h hksel
              · rw [h] at hpending
                simp at hpending
            · have : (n.login == some k) = false := beq_eq_false_iff_ne.mpr hlg
              simp [loginMatchB, this]
          · have : truthy n.id = false := by
              revert htr
              cases truthy n.id <;> simp
            simp [loginMatchB, this]
      exact finishCycle_rearm_of_login_left found notFound _ _ nodes k hksel
        hnone hpending

theorem loadTagsFinish_ok_loading
    (step : Except (TagState × List (Nat × Outcome (Option TagRecord)))
      (TagState × List (Nat × Outcome (Option TagRecord)) × List String))
    (st2 : TagState) (ns : List (Nat × Outcome (Option TagRecord)))
    (rm : Bool) (heq : loadTagsFinish step = .ok st2 ns rm) :
    st2.loading_tags = false := by
  rcases step with ⟨sta, nsa⟩ | ⟨sta, nsa, ids⟩
  · exact absurd heq (by simp [loadTagsFinish])
  · rcases hp : fulfillTagLeftover ids sta nsa with ⟨st3, ns3⟩
    rw [loadTagsFinish] at heq
    rw [hp] at heq
    simp only [TagsCycleResult.ok.injEq] at heq
    rw [← heq.1]

/-- C1: the spec requires the cycle-running flag to be cleared on every
exit path, success and failure alike, before the post-cycle re-arm check.
The success path does clear it: conjunct 1 for the users/streams cycle body
(`loadBulkBody` covers both) and conjunct 2 for a normally-completing tags
cycle.  The transport-failure path does NOT: the catch block `return`s with
the flag still set (conjuncts 3-5: users, streams, tags at concrete failing
states), after which a later lookup can no longer start a cycle
(conjunct 6: the started-flight component is `none`), so pending keys can
never be drained again. -/
theorem loading_flag_not_cleared_on_failure :
    (∀ (α γ : Type) (found : BulkNode α → γ) (notFound : γ)
      (st : SchedState) (nodesOpt : Option (List (Option (BulkNode α)))),
      st.loading = false →
      (loadBulkBody found notFound st (.ok nodesOpt)).1.loading = false) ∧
    (∀ (tst : TagState) (resp : Option (List (Option TagNode)))
      (st2 : TagState) (ns : List (Nat × Outcome (Option TagRecord)))
      (rm : Bool), tst.loading_tags = false →
      loadTagsBody tst (.ok resp) = .ok st2 ns rm →
      st2.loading_tags = false) ∧
    ((loadUsersBody (α := Unit) stuckUsers (.error "network")).1.loading
      = true) ∧
    ((loadStreamsBody (β := Unit) stuckUsers (.error "network")).1.loading
      = true) ∧
    ((loadTagsBody stuckTags (.error "network")).state.loading_tags
      = true) ∧
    ((getUserBasicStep (loadUsersBody (α := Unit) stuckUsers
        (.error "network")).1 (some "9") none 5).2.2 = none) := by
  refine ⟨?_, ?_, by decide, by decide, by decide, by decide⟩
  · intro α γ found notFound st nodesOpt hload
    rw [loadBulkBody_of_not_loading found notFound st hload]
    exact finishCycle_ok_loading found notFound _ _ nodesOpt
  · intro tst resp st2 ns rm hload heq
    rw [loadTagsBody] at heq
    rw [hload] at heq
    simp only [Bool.false_eq_true, if_false] at heq
    exact loadTagsFinish_ok_loading _ st2 ns rm heq

/-- C4: `_loadUsers` is not debounced (the constructor wraps only
`_loadTags` and `_loadStreams` in `debounce(..., 50)`), so the first
`getUserBasic` call of a tick runs the loader head synchronously and
snapshots a one-key batch before the second call registers: two remote
queries are issued for two same-tick callers instead of the one the spec
promises — though each caller still receives its own individually-resolved
result. -/
theorem same_tick_user_lookups_make_two_queries :
    sameTickTrace.queries = [⟨["1"], []⟩, ⟨["2"], []⟩] ∧
    sameTickTrace.notifs = [(0, Outcome.fulfilled (some exNodeA)),
      (1, Outcome.fulfilled (some exNodeB))] := by
  decide

/-- C6 counterexample: `getUserBasic(1, "foo")` — both id and login
supplied, violating "exactly one" — is NOT rejected: the id branch wins and
a waiter is registered for id "1"; and `getUserBasic(null, null)` is
rejected synchronously with the invalid-key error and registers nothing,
yet it still triggers a batch cycle (the trailing
`if (!this._loading_users) this._loadUsers();` runs after the `f(...)`
rejection, starting an empty-snapshot cycle). -/
theorem invalid_key_contract_counterexample :
    ((getUserBasicStep emptySched (some "1") (some "foo") 0).2.1 = none) ∧
    (mget (getUserBasicStep emptySched (some "1") (some "foo") 0).1.waiting_ids
      "1" = some [0]) ∧
    ((getUserBasicStep emptySched none none 0).2.1 =
      some (0, "id and login cannot both be null")) ∧
    ((getUserBasicStep emptySched none none 0).1.waiting_ids = []) ∧
    ((getUserBasicStep emptySched none none 0).1.waiting_logins = []) ∧
    ((getUserBasicStep emptySched none none 0).2.2 = some ⟨[], []⟩) := by
  decide

/-- C6 (amended): at least one of id and login must be provided.  A call
providing neither fails synchronously with the invalid-key rejection and
registers no waiter — but the loader entry point is still invoked (for
`getUserBasic` a cycle starts at once when none is running; for
`getStreamMeta` the debounced loader is invoked).  A call with a truthy id
registers in the id space and is not rejected even when a login is also
supplied (id takes precedence); a call with only a truthy login registers
in the login space. -/
theorem register_contract_spec (st : SchedState) (id login : Option String)
    (w : Nat) :
    (truthy id = false → truthy login = false →
      ((getUserBasicStep st id login w).2.1 =
        some (w, "id and login cannot both be null")) ∧
      ((getUserBasicStep st id login w).1.waiting_ids = st.waiting_ids) ∧
      ((getUserBasicStep st id login w).1.waiting_logins =
        st.waiting_logins) ∧
      ((getUserBasicStep st id login w).2.2.isSome = !st.loading) ∧
      ((getStreamMetaStep st id login w).2.1 =
        some (w, "id and login cannot both be null")) ∧
      ((getStreamMetaStep st id login w).1 = st) ∧
      ((getStreamMetaStep st id login w).2.2 = !st.loading)) ∧
    (truthy id = true →
      ((getUserBasicStep st id login w).2.1 = none) ∧
      ((getUserBasicStep st id login w).1.waiting_ids =
        mpush st.waiting_ids (strval id) w) ∧
      ((getUserBasicStep st id login w).1.waiting_logins =
        st.waiting_logins) ∧
      ((getStreamMetaStep st id login w).2.1 = none) ∧
      ((getStreamMetaStep st id login w).1.waiting_ids =
        mpush st.waiting_ids (strval id) w)) ∧
    (truthy id = false → truthy login = true →
      ((getUserBasicStep st id login w).2.1 = none) ∧
      ((getUserBasicStep st id login w).1.waiting_logins =
        mpush st.waiting_logins (strval login) w) ∧
      ((getUserBasicStep st id login w).1.waiting_ids = st.waiting_ids) ∧
      ((getStreamMetaStep st id login w).2.1 = none) ∧
      ((getStreamMetaStep st id login w).1.waiting_logins =
        mpush st.waiting_logins (strval login) w)) := by
  obtain ⟨wi0, wl0, l0⟩ := st
  refine ⟨fun h1 h2 => ?_, fun h1 => ?_, fun h1 h2 => ?_⟩
  · cases l0 <;>
      simp [getUserBasicStep, getStreamMetaStep, registerWaiter,
        startCycle, h1, h2]
  · cases l0 <;>
      simp [getUserBasicStep, getStreamMetaStep, registerWaiter,
        startCycle, h1]
  · cases l0 <;>
      simp [getUserBasicStep, getStreamMetaStep, registerWaiter,
        startCycle, h1, h2]

/-- Witness for `register_contract_spec` at concrete calls on a fresh
state. -/
theorem register_contract_spec_witness :
    ((getUserBasicStep emptySched none none 7).2.1 =
      some (7, "id and login cannot both be null")) ∧
    ((getUserBasicStep emptySched (some "5") none 7).1.waiting_ids =
      mpush emptySched.waiting_ids "5" 7) ∧
    ((getUserBasicStep emptySched none (some "bar") 7).1.waiting_logins =
      mpush emptySched.waiting_logins "bar" 7) := by
  refine ⟨?_, ?_, ?_⟩
  · exact (register_contract_spec emptySched none none 7).1 rfl rfl |>.1
  · exact ((register_contract_spec emptySched (some "5") none 7).2.1
      (by decide)).2.1
  · exact ((register_contract_spec emptySched none (some "bar") 7).2.2
      rfl (by decide)).2.1

/-- Witness for `batch_selection_bounded_ids_first` at a state with 51
pending id keys: the cycle is bounded by 50 and re-arms (a second cycle
runs) after a successful response. -/
theorem batch_selection_bounded_ids_first_witness :
    ((snapshotOf sched51).ids.length ≤ 50) ∧
    ((loadUsersBody sched51
      (.ok (some ([] : List (Option (BulkNode Unit)))))).2.2 = true) := by
  refine ⟨?_, ?_⟩
  · exact (batch_selection_bounded_ids_first Unit (Option (BulkNode Unit))
      (fun n => some n) none sched51 rfl (by decide) (by decide)).2.2.1
  · exact (batch_selection_bounded_ids_first Unit (Option (BulkNode Unit))
      (fun n => some n) none sched51 rfl (by decide)
      (by decide)).2.2.2.2.2 (by decide) []
      (fun node h => absurd h (List.not_mem_nil _))

/-- Witness for `loading_flag_not_cleared_on_failure`: the success path of
a users cycle at a concrete state clears the flag. -/
theorem loading_flag_not_cleared_on_failure_witness :
    stuckUsers.loading = false ∧
    (loadUsersBody (α := Unit) stuckUsers
      (.ok (some []))).1.loading = false :=
  ⟨rfl, loading_flag_not_cleared_on_failure.1 Unit (Option (BulkNode Unit))
    (fun n => some n) none stuckUsers (some []) rfl⟩

section TagLemmas

theorem truthy_eq (o : Option String) (h : truthy o = true) :
    o = some (strval o) := by
  cases o with
  | none => simp [truthy] at h
  | some s => rfl

theorem mergeTag_id (n : TagNode) (t : TagRecord) :
    (mergeTag n t).id = t.id := rfl

theorem mergeTag_desc_of_absent (n : TagNode) (t : TagRecord)
    (h : truthy n.localizedDescription = false) :
    (mergeTag n t).description = t.description := by
  simp [mergeTag, h]

theorem mergeTag_label_of_present (n : TagNode) (t : TagRecord)
    (h : truthy n.localizedName = true) :
    (mergeTag n t).label = n.localizedName := by
  simp [mergeTag, h]

theorem mergeTag_mergeTag (n : TagNode) (t : TagRecord)
    (hlabel : truthy n.localizedName = true) :
    mergeTag n (mergeTag n t) = mergeTag n t := by
  obtain ⟨i, v, au, lg, la, nm, sc, lb, ds⟩ := t
  by_cases hd : truthy n.localizedDescription = true <;>
    simp [mergeTag, hlabel, hd]

theorem memorizedRecord_of_cached (n : TagNode) (st : TagState)
    (t0 : TagRecord) (h0 : mget st.tag_cache (strval n.id) = some t0) :
    memorizedRecord n st = mergeTag n t0 := by
  simp [memorizedRecord, h0]

theorem memorizedRecord_id (n : TagNode) (st : TagState)
    (hWK : WellKeyedCache st) :
    (memorizedRecord n st).id = strval n.id := by
  unfold memorizedRecord
  cases h0 : mget st.tag_cache (strval n.id) with
  | none => simp [mergeTag, freshTag]
  | some t => simp [mergeTag, hWK _ _ h0]

theorem memorizeTag_cache (n : TagNode) (d : Bool) (st : TagState)
    (hg : (!truthy n.id || !truthy n.tagName ||
      !truthy n.localizedName) = false) :
    (memorizeTag (some n) d st).1.tag_cache =
      mset st.tag_cache (strval n.id) (memorizedRecord n st) := by
  simp only [memorizeTag, hg, Bool.false_eq_true, if_false]
  split <;> rfl

theorem memorizeTag_ret (n : TagNode) (d : Bool) (st : TagState)
    (hg : (!truthy n.id || !truthy n.tagName ||
      !truthy n.localizedName) = false) :
    (memorizeTag (some n) d st).2.1 = some (memorizedRecord n st) := by
  simp only [memorizeTag, hg, Bool.false_eq_true, if_false]
  split <;> rfl

theorem memorizeTag_rejected (n : TagNode) (d : Bool) (st : TagState)
    (hg : (!truthy n.id || !truthy n.tagName ||
      !truthy n.localizedName) = true) :
    memorizeTag (some n) d st = (st, none, []) := by
  simp [memorizeTag, hg]

theorem memorizeTag_wellKeyed (node : Option TagNode) (d : Bool)
    (st : TagState) (hWK : WellKeyedCache st) :
    WellKeyedCache (memorizeTag node d st).1 := by
  rcases node with _ | n
  · exact hWK
  by_cases hg : (!truthy n.id || !truthy n.tagName ||
      !truthy n.localizedName) = true
  · rw [memorizeTag_rejected n d st hg]
    exact hWK
  · have hg' : (!truthy n.id || !truthy n.tagName ||
        !truthy n.localizedName) = false := by
      revert hg
      cases (!truthy n.id || !truthy n.tagName || !truthy n.localizedName) <;>
        simp
    intro k t hkt
    rw [memorizeTag_cache n d st hg'] at hkt
    by_cases hk : strval n.id = k
    · subst hk
      rw [mget_mset_self] at hkt
      cases hkt
      exact memorizedRecord_id n st hWK
    · rw [mget_mset_ne _ _ _ _ hk] at hkt
      exact hWK k t hkt

theorem memorizeTag_ret_id (n : TagNode) (d : Bool) (st : TagState)
    (hWK : WellKeyedCache st) (r : TagRecord)
    (h : (memorizeTag (some n) d st).2.1 = some r) :
    r.id = strval n.id ∧ n.id = some r.id := by
  by_cases hg : (!truthy n.id || !truthy n.tagName ||
      !truthy n.localizedName) = true
  · rw [memorizeTag_rejected n d st hg] at h
    simp at h
  · have hg' : (!truthy n.id || !truthy n.tagName ||
        !truthy n.localizedName) = false := by
      revert hg
      cases (!truthy n.id || !truthy n.tagName || !truthy n.localizedName) <;>
        simp
    rw [memorizeTag_ret n d st hg'] at h
    have hid : truthy n.id = true := by
      by_contra hidf
      have : truthy n.id = false := by
        revert hidf
        cases truthy n.id <;> simp
      simp [this] at hg'
    have hrid : r.id = strval n.id := by
      cases h
      exact memorizedRecord_id n st hWK
    exact ⟨hrid, by rw [hrid]; exact truthy_eq n.id hid⟩

theorem entryIds_cons_some (r : TagRecord) (out : List (Option TagRecord)) :
    entryIds (some r :: out) = r.id :: entryIds out := by
  simp [entryIds]

theorem entryIds_cons_none (out : List (Option TagRecord)) :
    entryIds (none :: out) = entryIds out := by
  simp [entryIds]

theorem topTagsLoop_ids_spec (nodes : List (Option TagNode))
    (seen : List (Option String)) (st : TagState)
    (hWK : WellKeyedCache st) :
    (entryIds (topTagsLoop nodes seen st).2.1).Nodup ∧
    (∀ x ∈ entryIds (topTagsLoop nodes seen st).2.1,
      (some x : Option String) ∉ seen) := by
  induction nodes generalizing seen st with
  | nil =>
    refine ⟨List.nodup_nil, ?_⟩
    intro x hx
    simp [topTagsLoop, entryIds] at hx
  | cons node rest ih =>
    rcases node with _ | n
    · exact ih seen st hWK
    by_cases hseen : seen.contains n.id = true
    · rw [show topTagsLoop (some n :: rest) seen st =
        topTagsLoop rest seen st by
          simp only [topTagsLoop]
          rw [if_pos hseen]]
      exact ih seen st hWK
    · have hseen' : seen.contains n.id = false := by
        revert hseen
        cases seen.contains n.id <;> simp
      rcases hm : memorizeTag (some n) true st with ⟨st1, tagOpt, ns⟩
      have hWK1 : WellKeyedCache st1 := by
        have hwk := memorizeTag_wellKeyed (some n) true st hWK
        rw [hm] at hwk
        exact hwk
      rcases hloop : topTagsLoop rest (n.id :: seen) st1 with ⟨st2, out, ns2⟩
      have hstep : topTagsLoop (some n :: rest) seen st =
          (st2, tagOpt :: out, ns ++ ns2) := by
        simp only [topTagsLoop]
        rw [if_neg hseen]
        rw [hm, hloop]
      obtain ⟨ihnd, ihns⟩ := ih (n.id :: seen) st1 hWK1
      rw [hloop] at ihnd ihns
      rw [hstep]
      cases tagOpt with
      | none =>
        rw [show entryIds ((st2, none :: out, ns ++ ns2).2.1) =
          entryIds out from entryIds_cons_none out]
        refine ⟨ihnd, ?_⟩
        intro x hx hmem
        exact ihns x hx (List.mem_cons_of_mem _ hmem)
      | some r =>
        have hid := memorizeTag_ret_id n true st hWK r (by rw [hm])
        rw [show entryIds ((st2, some r :: out, ns ++ ns2).2.1) =
          r.id :: entryIds out from entryIds_cons_some r out]
        constructor
        · rw [List.nodup_cons]
          refine ⟨?_, ihnd⟩
          intro hc
          exact ihns r.id hc
            (by rw [← hid.2]; exact List.mem_cons_self _ _)
        · intro x hx hmem
          rcases List.mem_cons.mp hx with h | h
          · subst h
            rw [← hid.2] at hmem
            have hc : seen.contains n.id = true :=
              List.elem_eq_true_of_mem hmem
            rw [hc] at hseen'
            exact Bool.true_eq_false.mp hseen'
          · exact ihns x h (List.mem_cons_of_mem _ hmem)

theorem topTagsLoop_ids_sublist (nodes : List (Option TagNode))
    (seen : List (Option String)) (st : TagState)
    (hWK : WellKeyedCache st) :
    List.Sublist (entryIds (topTagsLoop nodes seen st).2.1)
      (nodes.filterMap (fun o => o.bind TagNode.id)) := by
  induction nodes generalizing seen st with
  | nil => simp [topTagsLoop, entryIds]
  | cons node rest ih =>
    rcases node with _ | n
    · rw [show List.filterMap (fun o => o.bind TagNode.id)
        (none :: rest) = rest.filterMap (fun o => o.bind TagNode.id) by
          simp]
      exact ih seen st hWK
    have hfm : List.filterMap (fun o => o.bind TagNode.id)
        (some n :: rest) = (match n.id with
          | some v => v :: rest.filterMap (fun o => o.bind TagNode.id)
          | none => rest.filterMap (fun o => o.bind TagNode.id)) := by
      rw [List.filterMap_cons,
        show (some n).bind TagNode.id = n.id from rfl]
      rcases hni : n.id with _ | v <;> rfl
    by_cases hseen : seen.contains n.id = true
    · rw [show topTagsLoop (some n :: rest) seen st =
        topTagsLoop rest seen st by
          simp only [topTagsLoop]
          rw [if_pos hseen]]
      rw [hfm]
      cases n.id with
      | none => exact ih seen st hWK
      | some v => exact (ih seen st hWK).cons v
    · have hseen' : seen.contains n.id = false := by
        revert hseen
        cases seen.contains n.id <;> simp
      rcases hm : memorizeTag (some n) true st with ⟨st1, tagOpt, ns⟩
      have hWK1 : WellKeyedCache st1 := by
        have hwk := memorizeTag_wellKeyed (some n) true st hWK
        rw [hm] at hwk
        exact hwk
      rcases hloop : topTagsLoop rest (n.id :: seen) st1 with ⟨st2, out, ns2⟩
      have hstep : topTagsLoop (some n :: rest) seen st =
          (st2, tagOpt :: out, ns ++ ns2) := by
        simp only [topTagsLoop]
        rw [if_neg hseen]
        rw [hm, hloop]
      have ihs := ih (n.id :: seen) st1 hWK1
      rw [hloop] at ihs
      rw [hstep, hfm]
      cases tagOpt with
      | none =>
        rw [show entryIds ((st2, none :: out, ns ++ ns2).2.1) =
          entryIds out from entryIds_cons_none out]
        cases n.id with
        | none => exact ihs
        | some v => exact ihs.cons v
      | some r =>
        have hid := memorizeTag_ret_id n true st hWK r (by rw [hm])
        rw [show entryIds ((st2, some r :: out, ns ++ ns2).2.1) =
          r.id :: entryIds out from entryIds_cons_some r out]
        rw [hid.2]
        exact ihs.cons₂ r.id

end TagLemmas

/-- C7: cache ingestion drops malformed upstream tag records silently —
`memorizeTag` returns without storing when the node (or its id, canonical
name or localized label) is missing (conjuncts 1-2) — BUT a malformed node
inside a `_loadTags` response is not ignored: the loop immediately reads
`.id` off the `undefined` return value, so the cycle body aborts with a
TypeError (conjunct 3: the concrete cycle crashes, delivering no
notifications and leaving the waiter stranded and the flag set). -/
theorem malformed_tag_node_handling :
    (∀ (node : TagNode) (dispatch : Bool) (st : TagState),
      truthy node.id = false ∨ truthy node.tagName = false ∨
        truthy node.localizedName = false →
      memorizeTag (some node) dispatch st = (st, none, [])) ∧
    (∀ (dispatch : Bool) (st : TagState),
      memorizeTag none dispatch st = (st, none, [])) ∧
    (loadTagsBody tagsWaitingSt (.ok (some [some malformedTagNode])) =
      .crashed ⟨[], [("50", [0])], true⟩ []) := by
  refine ⟨?_, fun d st => rfl, by decide⟩
  intro node d st h
  apply memorizeTag_rejected
  rcases h with h | h | h <;> simp [h]

/-- Witness for `malformed_tag_node_handling`: the malformed node (missing
its localized label) is silently dropped by direct ingestion. -/
theorem malformed_tag_node_handling_witness :
    memorizeTag (some malformedTagNode) true tagsWaitingSt =
      (tagsWaitingSt, none, []) :=
  malformed_tag_node_handling.1 malformedTagNode true tagsWaitingSt
    (Or.inr (Or.inr rfl))

/-- C8: `memorizeTag` is idempotent and monotonic: a second memorization of
the same well-formed node leaves the whole cache unchanged (conjunct 1); a
node lacking a description never erases a cached description, and the label
is (re)written from the node's present label (conjunct 2); a node whose
label is absent is rejected outright and changes nothing (conjunct 3). -/
theorem memorizeTag_idempotent_monotonic (n : TagNode) (st : TagState)
    (hid : truthy n.id = true) (hname : truthy n.tagName = true)
    (hlabel : truthy n.localizedName = true) :
    (∀ d1 d2 : Bool,
      (memorizeTag (some n) d2
        (memorizeTag (some n) d1 st).1).1.tag_cache =
          (memorizeTag (some n) d1 st).1.tag_cache) ∧
    (∀ (d : Bool) (t : TagRecord),
      mget st.tag_cache (strval n.id) = some t →
      truthy n.localizedDescription = false →
      ∃ t', mget (memorizeTag (some n) d st).1.tag_cache (strval n.id) =
          some t' ∧
        t'.description = t.description ∧
        t'.label = n.localizedName) ∧
    (∀ (m : TagNode) (d : Bool), truthy m.localizedName = false →
      (memorizeTag (some m) d st).1.tag_cache = st.tag_cache) := by
  have hg : (!truthy n.id || !truthy n.tagName ||
      !truthy n.localizedName) = false := by
    simp [hid, hname, hlabel]
  refine ⟨?_, ?_, ?_⟩
  · intro d1 d2
    have hc1 := memorizeTag_cache n d1 st hg
    have hc2 := memorizeTag_cache n d2 (memorizeTag (some n) d1 st).1 hg
    have hlook : mget (memorizeTag (some n) d1 st).1.tag_cache
        (strval n.id) = some (memorizedRecord n st) := by
      rw [hc1]
      exact mget_mset_self _ _ _
    have hR2 : memorizedRecord n (memorizeTag (some n) d1 st).1 =
        memorizedRecord n st := by
      rw [memorizedRecord_of_cached n _ _ hlook]
      rw [memorizedRecord]
      exact mergeTag_mergeTag n _ hlabel
    calc (memorizeTag (some n) d2
          (memorizeTag (some n) d1 st).1).1.tag_cache
        = mset (memorizeTag (some n) d1 st).1.tag_cache (strval n.id)
            (memorizedRecord n (memorizeTag (some n) d1 st).1) := hc2
      _ = mset (mset st.tag_cache (strval n.id) (memorizedRecord n st))
            (strval n.id) (memorizedRecord n st) := by rw [hc1, hR2]
      _ = mset st.tag_cache (strval n.id) (memorizedRecord n st) :=
          mset_mset_self _ _ _ _
      _ = (memorizeTag (some n) d1 st).1.tag_cache := hc1.symm
  · intro d t h0 htd
    refine ⟨mergeTag n t, ?_, mergeTag_desc_of_absent n t htd,
      mergeTag_label_of_present n t hlabel⟩
    rw [memorizeTag_cache n d st hg, memorizedRecord_of_cached n st t h0]
    exact mget_mset_self _ _ _
  · intro m d h
    rw [memorizeTag_rejected m d st (by simp [h])]

/-- Witness for `memorizeTag_idempotent_monotonic`: memorizing the same
tag node twice leaves the cache identical, and re-memorizing the
description-less node after the description-carrying one keeps the
description. -/
theorem memorizeTag_idempotent_monotonic_witness :
    ((memorizeTag (some plainTagNode) false
        (memorizeTag (some plainTagNode) false tagsWaitingSt).1).1.tag_cache =
      (memorizeTag (some plainTagNode) false tagsWaitingSt).1.tag_cache) ∧
    (∃ t', mget (memorizeTag (some plainTagNode) false
        (memorizeTag (some plainTagNodeDesc) false
          tagsWaitingSt).1).1.tag_cache "77" = some t' ∧
      t'.description = plainTagRecordDesc.description ∧
      t'.label = plainTagNode.localizedName) := by
  constructor
  · exact (memorizeTag_idempotent_monotonic plainTagNode tagsWaitingSt
      (by decide) (by decide) (by decide)).1 false false
  · exact (memorizeTag_idempotent_monotonic plainTagNode
      (memorizeTag (some plainTagNodeDesc) false tagsWaitingSt).1
      (by decide) (by decide) (by decide)).2.1 false
      plainTagRecordDesc (by decide) rfl

/-- C9: for a cached tag record lacking a description,
`getTag(id, want_description=true)` does not resolve from the cache: it
appends a waiter for the id to the batched-fetch registry (and, when the id
was not yet registered and no cycle is running, invokes the debounced
`_loadTags`); the same call with `want_description=false` resolves
immediately with the cached record, leaving the whole state — hence the
network — untouched. -/
theorem getTag_description_refetch (st : TagState) (id : String)
    (t : TagRecord) (w : Nat) (hc : mget st.tag_cache id = some t)
    (hd : truthy t.description = false) :
    (getTag (.byId id) false st w = (st, .immediate t)) ∧
    (mget (getTag (.byId id) true st w).1.waiting_tags id =
      some ((mget st.waiting_tags id).getD [] ++ [w])) ∧
    (∃ b, (getTag (.byId id) true st w).2 = .queued b) ∧
    (mget st.waiting_tags id = none → st.loading_tags = false →
      (getTag (.byId id) true st w).2 = .queued true) := by
  refine ⟨?_, ?_, ?_, ?_⟩
  · simp [getTag, tagRefId, hc, hd]
  · cases hw : mget st.waiting_tags id with
    | some ws =>
      simp [getTag, tagRefId, queueTag, hc, hd, hw, mget_mset_self]
    | none =>
      simp [getTag, tagRefId, queueTag, hc, hd, hw, mget_mset_self]
  · cases hw : mget st.waiting_tags id with
    | some ws =>
      exact ⟨false, by simp [getTag, tagRefId, queueTag, hc, hd, hw]⟩
    | none =>
      exact ⟨!st.loading_tags,
        by simp [getTag, tagRefId, queueTag, hc, hd, hw]⟩
  · intro hw hl
    simp [getTag, tagRefId, queueTag, hc, hd, hw, hl]

/-- Witness for `getTag_description_refetch` on the cached description-less
language tag: the description-requiring call queues waiter 7 behind the
already-pending waiter 0, while the plain call resolves immediately. -/
theorem getTag_description_refetch_witness :
    (getTag (.byId "77") false
      (memorizeTag (some plainTagNode) false tagsWaitingSt).1 7 =
      ((memorizeTag (some plainTagNode) false tagsWaitingSt).1,
       .immediate plainTagRecord)) ∧
    (mget (getTag (.byId "77") true
      (memorizeTag (some plainTagNode) false tagsWaitingSt).1
        7).1.waiting_tags "77" = some [7]) := by
  constructor
  · exact (getTag_description_refetch _ "77" plainTagRecord 7
      (by decide) rfl).1
  · have h := (getTag_description_refetch
      (memorizeTag (some plainTagNode) false tagsWaitingSt).1 "77"
      plainTagRecord 7 (by decide) rfl).2.1
    rw [h]
    decide

/-- C10: the `getTopTags` result list has at most one entry per distinct
tag id: the ids of its (defined) entries are pairwise distinct
(conjunct 1) and form a subsequence of the response's node ids in
first-occurrence order (conjunct 2); a non-array response yields `[]`
(conjunct 3); null entries (conjunct 4) and nodes whose id was already
seen (conjunct 5) are skipped.  `hWK` is the cache invariant maintained by
`memorizeTag`: every cached record is stored under its own id. -/
theorem getTopTags_dedup_spec (nodes : List (Option TagNode))
    (st : TagState) (hWK : WellKeyedCache st) :
    (entryIds (getTopTagsProcess (some nodes) st).2.1).Nodup ∧
    List.Sublist (entryIds (getTopTagsProcess (some nodes) st).2.1)
      (nodes.filterMap (fun o => o.bind TagNode.id)) ∧
    (getTopTagsProcess none st = (st, [], [])) ∧
    (∀ (rest : List (Option TagNode)) (seen : List (Option String))
      (stx : TagState),
      topTagsLoop (none :: rest) seen stx = topTagsLoop rest seen stx) ∧
    (∀ (n : TagNode) (rest : List (Option TagNode))
      (seen : List (Option String)) (stx : TagState),
      seen.contains n.id = true →
      topTagsLoop (some n :: rest) seen stx = topTagsLoop rest seen stx) := by
  refine ⟨(topTagsLoop_ids_spec nodes [] st hWK).1,
    topTagsLoop_ids_sublist nodes [] st hWK, rfl,
    fun rest seen stx => rfl, ?_⟩
  intro n rest seen stx hseen
  simp only [topTagsLoop]
  rw [if_pos hseen]

/-- Witness for `getTopTags_dedup_spec` on a response with a null entry and
a duplicated tag id, from an empty cache. -/
theorem getTopTags_dedup_spec_witness :
    (entryIds (getTopTagsProcess
      (some [some langTagNode, none, some langTagNode,
        some langTagNodeDesc]) ⟨[], [], false⟩).2.1).Nodup :=
  (getTopTags_dedup_spec
    [some langTagNode, none, some langTagNode, some langTagNodeDesc]
    ⟨[], [], false⟩ (fun k t h => by simp [mget] at h)).1

end TwitchData
